import Mathlib

/-!
LogAlert: the scan, match and dispatch engine of `main.go`.

A shallow embedding of the functions of `main.go` that decide which lines of a
growing log file are reported, how undelivered lines are buffered on disk and how
delivery is retried.

Conventions of the embedding.

* A Go `string` is a sequence of bytes: `GoString := List UInt8`.
* Go's `int` is `Int`; the one sum that can leave the 64-bit range, the end offset of a
  scan whose `Seek` was refused, is wrapped.
* A run-time panic is the error of `Except GoPanic`.
* The standard library functions `regexp.Compile`, `(*Regexp).MatchString`,
  `strings.ToLower`, `filepath.Base` and the answer of `(*os.File).Seek` past the end of a
  file are the fields of a structure `Lib`; every theorem holds for every such library. `bufio.Scanner` with `bufio.ScanLines`, `strings.Split` and
  `strings.Join` are written out.
* Files are a map from paths to contents. The SMTP exchange of `SendEmailAlert` is a
  capability that tells, for each call, whether it succeeds.
* The calls of `SendEmailAlert`, `time.Sleep`, `WriteMatchesToFile` and `ClearMatchesFile`
  are recorded in a ghost trace. Logging is left out.
-/

namespace LogAlert

/-! ## Strings and the library -/

/-- A Go string: a sequence of bytes. -/
abbrev GoString := List UInt8

/-- The bytes of an ASCII literal. -/
def bytes (s : String) : GoString := s.toList.map (fun c => c.toNat.toUInt8)

/-- The line feed byte. -/
def LF : UInt8 := 10

/-- The carriage return byte. -/
def CR : UInt8 := 13

/-- The space byte. -/
def SP : UInt8 := 32

/-- A run-time panic of the Go program. -/
inductive GoPanic
  | nilPointerDereference
  deriving DecidableEq, Repr

deriving instance DecidableEq for Except

/-- The library functions used by `main.go` whose code is outside the repository.
`Compile p` is `none` when `regexp.Compile(p)` returns an error, and otherwise the
predicate `MatchString` of the compiled expression. `SeekPastEnd off` tells whether
`(*os.File).Seek(off, 0)` succeeds for an offset `off` past the end of the file, which
depends on the file system (ext4 refuses the offsets from `2^44` on). -/
structure Lib where
  Compile : GoString → Option (GoString → Bool)
  ToLower : GoString → GoString
  Base : GoString → GoString
  SeekPastEnd : Int → Bool

/-- The struct `LogLocation` of `main.go`. -/
structure LogLocation where
  FileLocation : GoString
  SmtpRecipients : List GoString
  SearchTerms : List GoString
  IgnoreTerms : List GoString

/-! ## Term matcher -/

/-- The function `FindMatch`: the terms are tried in order. When `regexp.Compile` fails the
error is logged and `regexpression` is `nil`; the call `regexpression.MatchString` that
follows dereferences it. -/
def FindMatch (L : Lib) (line : GoString) : List GoString → Except GoPanic Bool
  | [] => .ok false
  | s :: terms =>
    match L.Compile (L.ToLower s) with
    | none => .error GoPanic.nilPointerDereference
    | some regexpression =>
      if regexpression (L.ToLower line) then .ok true else FindMatch L line terms

/-- The function `FilterMatches`: keeps the matches for which `FindMatch` on the ignore
list is false. -/
def FilterMatches (L : Lib) (ignoreList : List GoString) :
    List GoString → Except GoPanic (List GoString)
  | [] => .ok []
  | m :: matchesArr =>
    match FindMatch L m ignoreList with
    | .error p => .error p
    | .ok true => FilterMatches L ignoreList matchesArr
    | .ok false =>
      match FilterMatches L ignoreList matchesArr with
      | .error p => .error p
      | .ok finalArr => .ok (m :: finalArr)

/-! ## Term-conflict validation -/

/-- A Go `map[string]string`. -/
abbrev StringMap := GoString → Option GoString

/-- The empty map, `make(map[string]string)`. -/
def StringMap.empty : StringMap := fun _ => none

/-- The assignment `m[k] = v`. -/
def StringMap.set (m : StringMap) (k v : GoString) : StringMap :=
  fun x => if x = k then some v else m x

/-- The second loop of `CheckSearchAndIgnoreDuplicates`. -/
def ignoreLoop (stermMap : StringMap) : List GoString → Bool
  | [] => false
  | ignoreTerm :: iterm =>
    match stermMap ignoreTerm with
    | some _ => true
    | none => ignoreLoop stermMap iterm

/-- The function `CheckSearchAndIgnoreDuplicates`. The file location is only used in the
log message. -/
def CheckSearchAndIgnoreDuplicates (sterm iterm : List GoString) (_fileLocation : GoString) :
    Bool :=
  let stermMap := sterm.foldl (fun m s => StringMap.set m s s) StringMap.empty
  ignoreLoop stermMap iterm

/-! ## Incremental scanner -/

/-- A file system: the content of every existing file, by path. -/
abbrev FileSystem := GoString → Option GoString

/-- The constant `bufio.MaxScanTokenSize`, the buffer limit of a `bufio.Scanner`. -/
def MaxScanTokenSize : Nat := 64 * 1024

/-- The function `dropCR` of `bufio`: drops one trailing carriage return. -/
def dropCR (data : GoString) : GoString :=
  if data.getLast? = some CR then data.dropLast else data

/-- The tokens delivered by the calls of `scanner.Scan()` with the split function
`scanLines` of `ReadFileForMatches`, and the sum of the `advance` values added to
`endingPoint`. `cur` holds the bytes of the line being read. `bufio.ScanLines` cuts at
each line feed, returns a last unterminated line at the end of the file, and applies
`dropCR`. The scanner gives up (`ErrTooLong`, which `ReadFileForMatches` does not look at)
when its buffer holds `max` bytes without a line feed. -/
def scanTokens (max : Nat) : GoString → GoString → List GoString × Nat
  | [], cur =>
    if cur = [] then ([], 0)
    else if cur.length < max then ([dropCR cur], cur.length)
    else ([], 0)
  | b :: data, cur =>
    if b = LF then
      if cur.length < max then
        (dropCR cur :: (scanTokens max data []).1, cur.length + 1 + (scanTokens max data []).2)
      else ([], 0)
    else scanTokens max data (cur ++ [b])

/-- The loop `for scanner.Scan()` of `ReadFileForMatches`: the tokens for which `FindMatch`
on the search terms is true are appended to `matchArr`. -/
def collectMatches (L : Lib) (searchTerms : List GoString) :
    List GoString → Except GoPanic (List GoString)
  | [] => .ok []
  | text :: tokens =>
    match FindMatch L text searchTerms with
    | .error p => .error p
    | .ok found =>
      match collectMatches L searchTerms tokens with
      | .error p => .error p
      | .ok matchArr => .ok (if found then text :: matchArr else matchArr)

/-- The bytes the scanner reads after `openSesame.Seek(int64(startingpoint), 0)`. An offset
within the file moves the position there. A negative offset is refused. An offset past
the end of the file is accepted or refused by the file system: when it is accepted
nothing is left to read. When `Seek` is refused the error is logged and the position stays
at byte 0, so the whole file is read. -/
def seek (L : Lib) (content : GoString) (startingpoint : Int) : GoString :=
  if startingpoint < 0 then content
  else if startingpoint ≤ (content.length : Int) then content.drop startingpoint.toNat
  else if L.SeekPastEnd startingpoint then []
  else content

/-- The value of a 64-bit signed integer after an overflow. -/
def wrapInt64 (x : Int) : Int :=
  (x + 9223372036854775808) % 18446744073709551616 - 9223372036854775808

/-- The variable `endingPoint` at the end of the scan: `startingpoint` plus the bytes
consumed. For a start offset within the file the sum is at most the size of the file, which
is an `int64`; otherwise the sum is the wrapped one of Go. -/
def endingPoint (content : GoString) (startingpoint : Int) (advance : Nat) : Int :=
  if 0 ≤ startingpoint ∧ startingpoint ≤ (content.length : Int) then startingpoint + (advance : Int)
  else wrapInt64 (startingpoint + (advance : Int))

/-- The function `ReadFileForMatches`. A file that does not exist gives no match and the
end offset 0. -/
def ReadFileForMatches (L : Lib) (fs : FileSystem) (fileLocation : GoString)
    (searchTerms ignoreList : List GoString) (startingpoint : Int) :
    Except GoPanic (List GoString × Int) :=
  match fs fileLocation with
  | none => .ok ([], 0)
  | some content =>
    let scanned := scanTokens MaxScanTokenSize (seek L content startingpoint) []
    match collectMatches L searchTerms scanned.1 with
    | .error p => .error p
    | .ok matchArr =>
      match FilterMatches L ignoreList matchArr with
      | .error p => .error p
      | .ok finalArr => .ok (finalArr, endingPoint content startingpoint scanned.2)

/-- The function `CheckFileLength`: the size of the file, 0 when it does not exist. -/
def CheckFileLength (fs : FileSystem) (fileLocation : GoString) : Int :=
  match fs fileLocation with
  | none => 0
  | some content => (content.length : Int)

/-- Lines 75 to 77 of `main`: the stored offset `FileLine` is replaced by 0 when the
file is now smaller than it. -/
def truncationReset (FileLine currentFileSize : Int) : Int :=
  if currentFileSize < FileLine then 0 else FileLine

/-! ## Highlighting -/

/-- The call `strings.Split(s, " ")`: `s` is cut at every space byte. -/
def splitSpace : GoString → List GoString
  | [] => [[]]
  | b :: s =>
    if b = SP then [] :: splitSpace s
    else
      match splitSpace s with
      | [] => [[b]]
      | a :: arr => (b :: a) :: arr

/-- The call `strings.Join(elems, " ")`. -/
def joinSpace : List GoString → GoString
  | [] => []
  | [a] => a
  | a :: b :: elems => a ++ SP :: joinSpace (b :: elems)

/-- The result of `fmt.Sprintf("<span style=color:#EC5C46 border>%v</span>", a)`. -/
def span (a : GoString) : GoString :=
  bytes "<span style=color:#EC5C46 border>" ++ a ++ bytes "</span>"

/-- The loop of `ColorMatch` over the pieces of the line. -/
def colorLoop (L : Lib) (searchTerms : List GoString) :
    List GoString → Except GoPanic (List GoString)
  | [] => .ok []
  | a :: arr =>
    match FindMatch L a searchTerms with
    | .error p => .error p
    | .ok found =>
      match colorLoop L searchTerms arr with
      | .error p => .error p
      | .ok coloredArr => .ok ((if found then span a else a) :: coloredArr)

/-- The function `ColorMatch`. -/
def ColorMatch (L : Lib) (m : GoString) (searchTerms : List GoString) :
    Except GoPanic GoString :=
  match colorLoop L searchTerms (splitSpace m) with
  | .error p => .error p
  | .ok coloredArr => .ok (joinSpace coloredArr)

/-! ## Pending-match store -/

/-- The value of `runtime.GOOS`, as far as `main.go` distinguishes it. -/
inductive GOOS
  | windows
  | linux
  deriving DecidableEq, Repr

/-- The function `MakeMatchesFolder`: the folder of the store. Folders are not modelled, so
the `os.Mkdir` of a missing folder does not fail. -/
def MakeMatchesFolder : GOOS → GoString
  | .windows => bytes "./matches"
  | .linux => bytes "/usr/local/bin/inhouse/logalert/matches"

/-- The variable `path` of `ClearMatchesFile` and `GetSavedFileMatches`. -/
def matchesPath : GOOS → GoString
  | .windows => bytes "./matches/"
  | .linux => bytes "/usr/local/bin/inhouse/logalert/matches/"

/-- Whether `Write` is accepted by a file opened with `os.O_APPEND|os.O_CREATE` and no
access mode, as `WriteMatchesToFile` does. The missing mode is `O_RDONLY`. On Windows the
package `syscall` opens the handle with `FILE_APPEND_DATA` when `O_APPEND` is set, so
the write appends; elsewhere the descriptor is read-only and `write` fails with `EBADF`. -/
def appendHandleWritable : GOOS → Bool
  | .windows => true
  | .linux => false

/-- The calls recorded in the ghost trace. -/
inductive Event
  | SendEmailAlert (matchesArr savedFileMatches : List GoString)
  | Sleep
  | WriteMatchesToFile (fileName : GoString) (matchesArr : List GoString)
  | ClearMatchesFile (fileName : GoString)
  deriving DecidableEq, Repr

/-- The state of the world around the program: the files, the number of calls of
`SendEmailAlert` made so far, and the ghost trace. -/
structure World where
  fs : FileSystem
  sent : Nat
  trace : List Event

/-- The bytes `"\r\n"`. -/
def CRLF : GoString := [CR, LF]

/-- The write loop of `WriteMatchesToFile`: each match is written followed by `"\r\n"`;
the first failing `Write` ends the function with its error (`true`). -/
def writeLoop (goos : GOOS) (fileLocation : GoString) :
    List GoString → FileSystem → Bool × FileSystem
  | [], fs => (false, fs)
  | m :: matchesArr, fs =>
    if appendHandleWritable goos then
      writeLoop goos fileLocation matchesArr
        (fun p => if p = fileLocation then some ((fs p).getD [] ++ (m ++ CRLF)) else fs p)
    else (true, fs)

/-- The function `WriteMatchesToFile`; the first component tells whether an error is
returned. `os.OpenFile` with `O_CREATE` creates the file when it is missing. -/
def WriteMatchesToFile (goos : GOOS) (fileName : GoString) (matchesArr : List GoString)
    (w : World) : Bool × World :=
  let fileLocation := MakeMatchesFolder goos ++ bytes "/" ++ fileName
  let opened : FileSystem :=
    fun p => if p = fileLocation then some ((w.fs p).getD []) else w.fs p
  let written := writeLoop goos fileLocation matchesArr opened
  (written.1, { w with fs := written.2,
                       trace := w.trace ++ [Event.WriteMatchesToFile fileName matchesArr] })

/-- The function `ClearMatchesFile`: removes the file when it exists. -/
def ClearMatchesFile (goos : GOOS) (fileName : GoString) (w : World) : Bool × World :=
  let filePath := matchesPath goos ++ fileName
  match w.fs filePath with
  | none => (false, { w with trace := w.trace ++ [Event.ClearMatchesFile fileName] })
  | some _ =>
    (false, { w with fs := fun p => if p = filePath then none else w.fs p,
                     trace := w.trace ++ [Event.ClearMatchesFile fileName] })

/-- The call `strings.Split(s, "\r\n")`. -/
def splitCRLF : GoString → List GoString
  | [] => [[]]
  | [b] => [[b]]
  | b :: c :: s =>
    if b = CR ∧ c = LF then [] :: splitCRLF s
    else
      match splitCRLF (c :: s) with
      | [] => [[b]]
      | a :: arr => (b :: a) :: arr

/-- The function `GetSavedFileMatches`: the non-empty pieces of the file cut at `"\r\n"`,
nothing when the file does not exist. -/
def GetSavedFileMatches (goos : GOOS) (fileName : GoString) (fs : FileSystem) :
    List GoString :=
  match fs (matchesPath goos ++ fileName) with
  | none => []
  | some fileData => (splitCRLF fileData).filter (fun m => m ≠ [])

/-! ## Alert dispatcher -/

/-- The two loops of `SendEmailAlert` that build the body of the message. -/
def bodyLoop (L : Lib) (searchTerms : List GoString) :
    List GoString → Except GoPanic GoString
  | [] => .ok []
  | m :: rest =>
    match ColorMatch L m searchTerms with
    | .error p => .error p
    | .ok coloredString =>
      match bodyLoop L searchTerms rest with
      | .error p => .error p
      | .ok body => .ok (coloredString ++ bytes "<br>" ++ bytes "<br>" ++ body)

/-- The function `SendEmailAlert`. The body is built from the new matches followed by the
saved ones; the SMTP exchange is the capability `mail`: the call number `k` of the run
returns `nil` when `mail k` is true and an error otherwise. The first component of the
result tells whether an error is returned. -/
def SendEmailAlert (L : Lib) (mail : Nat → Bool) (matchesArr savedFileMatches : List GoString)
    (loglocation : LogLocation) (w : World) : Except GoPanic (Bool × World) :=
  match bodyLoop L loglocation.SearchTerms (matchesArr ++ savedFileMatches) with
  | .error p => .error p
  | .ok _ =>
    .ok (!mail w.sent,
      { w with sent := w.sent + 1,
               trace := w.trace ++ [Event.SendEmailAlert matchesArr savedFileMatches] })

/-- The function `RetrySendEmailAlert`. -/
def RetrySendEmailAlert (L : Lib) (mail : Nat → Bool) (goos : GOOS)
    (matchesArr savedFileMatches : List GoString) (loglocation : LogLocation)
    (fileLocation : GoString) (sentinel : Int) (w : World) : Except GoPanic World :=
  if 5 ≤ sentinel then
    .ok (WriteMatchesToFile goos (L.Base fileLocation) matchesArr w).2
  else
    match SendEmailAlert L mail matchesArr savedFileMatches loglocation
        { w with trace := w.trace ++ [Event.Sleep] } with
    | .error p => .error p
    | .ok (true, w1) =>
      RetrySendEmailAlert L mail goos matchesArr savedFileMatches loglocation fileLocation
        (sentinel + 1) w1
    | .ok (false, w1) => .ok w1
termination_by (5 - sentinel).toNat
decreasing_by omega

/-- Lines 88 to 97 of `main`, the dispatch step: the first send, followed by
`RetrySendEmailAlert` with sentinel 0 when it fails and by `ClearMatchesFile` when it
succeeds. -/
def dispatchStep (L : Lib) (mail : Nat → Bool) (goos : GOOS)
    (matchesArr savedFileMatches : List GoString) (loglocation : LogLocation)
    (file : GoString) (w : World) : Except GoPanic World :=
  match SendEmailAlert L mail matchesArr savedFileMatches loglocation w with
  | .error p => .error p
  | .ok (true, w1) =>
    RetrySendEmailAlert L mail goos matchesArr savedFileMatches loglocation file 0 w1
  | .ok (false, w1) => .ok (ClearMatchesFile goos (L.Base file) w1).2

/-- Lines 86 to 100 of `main`: the dispatch step takes place when there is a new match or
a saved one. -/
def dispatch (L : Lib) (mail : Nat → Bool) (goos : GOOS)
    (matchesArr savedFileMatches : List GoString) (loglocation : LogLocation)
    (file : GoString) (w : World) : Except GoPanic World :=
  if 0 < matchesArr.length ∨ 0 < savedFileMatches.length then
    dispatchStep L mail goos matchesArr savedFileMatches loglocation file w
  else .ok w

/-- Lines 79 to 101 of `main`: what is done with the result of `ReadFileForMatches`. The
result is the world after the dispatch and the offset handed to `WritePlaceHolderFile`, or
`none` when the target is skipped (`continue`). -/
def afterScan (L : Lib) (mail : Nat → Bool) (goos : GOOS) (loglocation : LogLocation)
    (file : GoString) (scan : Except GoPanic (List GoString × Int)) (w : World) :
    Except GoPanic (Option Int × World) :=
  match scan with
  | .error p => .error p
  | .ok (matchesArr, endingline) =>
    if matchesArr.length = 0 ∧ endingline = 0 then .ok (none, w)
    else
      match dispatch L mail goos matchesArr (GetSavedFileMatches goos (L.Base file) w.fs)
          loglocation file w with
      | .error p => .error p
      | .ok w1 => .ok (some endingline, w1)

/-- Lines 73 to 101 of `main` for one target. `FileLine` is the value returned by
`ReadPlaceHolderFile`. -/
def processTarget (L : Lib) (mail : Nat → Bool) (goos : GOOS) (loglocation : LogLocation)
    (file : GoString) (FileLine : Int) (w : World) : Except GoPanic (Option Int × World) :=
  let currentFileSize := CheckFileLength w.fs file
  afterScan L mail goos loglocation file
    (ReadFileForMatches L w.fs file loglocation.SearchTerms loglocation.IgnoreTerms
      (truncationReset FileLine currentFileSize)) w

/-! ## Vocabulary of the statements -/

/-- A term is well formed when the expression that `FindMatch` builds from it, the term
in lower case, compiles. -/
def WellFormed (L : Lib) (t : GoString) : Prop := (L.Compile (L.ToLower t)).isSome = true

instance (L : Lib) (t : GoString) : Decidable (WellFormed L t) := by
  unfold WellFormed; infer_instance

/-- Whether the expression compiled from the term `t` in lower case matches the line in
lower case; false when it does not compile. -/
def termMatches (L : Lib) (line t : GoString) : Bool :=
  match L.Compile (L.ToLower t) with
  | none => false
  | some re => re (L.ToLower line)

/-- The bytes that `WriteMatchesToFile` writes for a list of matches. -/
def encodeLines : List GoString → GoString
  | [] => []
  | m :: matchesArr => m ++ CRLF ++ encodeLines matchesArr

/-- The ghost trace of `n` rounds of `RetrySendEmailAlert`: a sleep, then a send. -/
def retryTrace (matchesArr savedFileMatches : List GoString) : Nat → List Event
  | 0 => []
  | n + 1 => Event.Sleep :: Event.SendEmailAlert matchesArr savedFileMatches ::
      retryTrace matchesArr savedFileMatches n

/-! ## A concrete library and concrete worlds for evaluation -/

/-- ASCII lower-casing of one byte. -/
def lowerByte (b : UInt8) : UInt8 :=
  if 65 ≤ b.toNat ∧ b.toNat ≤ 90 then (b.toNat + 32).toUInt8 else b

/-- The bytes that are regular-expression metacharacters. -/
def metaBytes : GoString := bytes "\\.+*?()|[]\x7b\x7d^$"

/-- Whether `p` occurs in `s` as a contiguous block. -/
def containsBlock (p : GoString) : GoString → Bool
  | [] => p.isEmpty
  | c :: s => p.isPrefixOf (c :: s) || containsBlock p s

/-- A small library used to evaluate the definitions on concrete inputs. On ASCII
patterns free of metacharacters it agrees with Go: such a pattern compiles and matches
the strings that contain it; `ToLower` is Go's on ASCII strings. A pattern containing a
metacharacter is rejected; the only such pattern used below is the single opening
parenthesis, which `regexp.Compile` rejects as well (missing closing parenthesis).
`Base` is exact on non-empty names without a path separator. `SeekPastEnd` is the limit
`2^44` of ext4. -/
def asciiLib : Lib where
  Compile := fun p => if p.any (fun b => metaBytes.contains b) then none
    else some (fun s => containsBlock p s)
  ToLower := fun s => s.map lowerByte
  Base := fun p => p
  SeekPastEnd := fun off => decide (off < 17592186044416)

/-- A file system holding one file. -/
def oneFile (path content : GoString) : FileSystem :=
  fun p => if p = path then some content else none

/-- A mail capability whose every call fails. -/
def alwaysFails : Nat → Bool := fun _ => false

/-- A mail capability whose first call fails and whose later calls succeed. -/
def secondSucceeds : Nat → Bool := fun k => decide (1 ≤ k)

/-- A target watching `app.log` for the term `error`. -/
def scenarioTarget : LogLocation where
  FileLocation := bytes "app.log"
  SmtpRecipients := [bytes "ops@example.com"]
  SearchTerms := [bytes "error"]
  IgnoreTerms := []

/-- A world without files, before any send. -/
def emptyWorld : World where
  fs := fun _ => none
  sent := 0
  trace := []

/-- A world whose store for `app.log` on Windows holds one pending line. -/
def storeWorld : World where
  fs := oneFile (bytes "./matches/app.log") (bytes "ERROR old\r\n")
  sent := 0
  trace := []

/-- A mail capability whose every call succeeds. -/
def alwaysSucceeds : Nat → Bool := fun _ => true

/-- A world in which `app.log` was truncated and now holds 200 bytes, the first line being
a match. -/
def truncatedWorld : World where
  fs := oneFile (bytes "app.log") (bytes "ERROR disk is full\n" ++ List.replicate 180 120 ++ [LF])
  sent := 0
  trace := []

/-- A log of three lines, 98 bytes: two lines contain `ERROR`, one of them `ERROR: transient`. -/
def scenarioLog : GoString :=
  bytes "10:00:01 ERROR: disk /dev/sda1 is full\n10:00:02 INFO: heartbeat\n10:00:03 ERROR: transient timeout\n"

/-! ## Term matcher: lemmas -/

theorem FindMatch_wellFormed (L : Lib) (line : GoString) (terms : List GoString)
    (h : ∀ t ∈ terms, WellFormed L t) :
    FindMatch L line terms = .ok (terms.any (termMatches L line)) := by
  induction terms with
  | nil => rfl
  | cons t ts ih =>
    have ht : WellFormed L t := h t (List.mem_cons_self _ _)
    have hts : ∀ u ∈ ts, WellFormed L u := fun u hu => h u (List.mem_cons_of_mem _ hu)
    unfold WellFormed at ht
    cases hc : L.Compile (L.ToLower t) with
    | none => rw [hc] at ht; cases ht
    | some re =>
      by_cases hm : re (L.ToLower line) = true
      · simp [FindMatch, hc, hm, termMatches]
      · simp [FindMatch, hc, hm, termMatches, ih hts]

theorem FindMatch_lower_congr (L : Lib) (line line' : GoString) (terms terms' : List GoString)
    (hl : L.ToLower line' = L.ToLower line)
    (ht : terms'.map L.ToLower = terms.map L.ToLower) :
    FindMatch L line' terms' = FindMatch L line terms := by
  induction terms generalizing terms' with
  | nil =>
    cases terms' with
    | nil => rfl
    | cons a as => simp at ht
  | cons t ts ih =>
    cases terms' with
    | nil => simp at ht
    | cons a as =>
      simp only [List.map_cons, List.cons.injEq] at ht
      simp only [FindMatch, ht.1, hl, ih as ht.2]

/-! ## Term-conflict validation: lemmas -/

theorem foldl_set_isSome (sterm : List GoString) (m : StringMap) (x : GoString) :
    ((sterm.foldl (fun m s => StringMap.set m s s) m) x).isSome = true ↔
      x ∈ sterm ∨ (m x).isSome = true := by
  induction sterm generalizing m with
  | nil => simp
  | cons s ss ih =>
    rw [List.foldl_cons, ih]
    by_cases hx : x = s
    · simp [StringMap.set, hx]
    · simp [StringMap.set, hx]

theorem ignoreLoop_true (m : StringMap) (iterm : List GoString) :
    ignoreLoop m iterm = true ↔ ∃ t ∈ iterm, (m t).isSome = true := by
  induction iterm with
  | nil => simp [ignoreLoop]
  | cons t ts ih =>
    cases hm : m t with
    | none => simp [ignoreLoop, hm, ih]
    | some v => simp [ignoreLoop, hm]

theorem CheckSearchAndIgnoreDuplicates_true (sterm iterm : List GoString) (file : GoString) :
    CheckSearchAndIgnoreDuplicates sterm iterm file = true ↔ ∃ t, t ∈ sterm ∧ t ∈ iterm := by
  unfold CheckSearchAndIgnoreDuplicates
  simp only [ignoreLoop_true, foldl_set_isSome, StringMap.empty]
  constructor
  · rintro ⟨t, hti, hts⟩
    rcases hts with hts | hts
    · exact ⟨t, hts, hti⟩
    · simp at hts
  · rintro ⟨t, hts, hti⟩
    exact ⟨t, hti, Or.inl hts⟩

/-! ## Incremental scanner: lemmas -/

theorem scanTokens_nil (max : Nat) : scanTokens max [] [] = ([], 0) := by
  simp [scanTokens]

theorem scanTokens_cons_LF (max : Nat) (data cur : GoString) :
    scanTokens max (LF :: data) cur =
      if cur.length < max then
        (dropCR cur :: (scanTokens max data []).1, cur.length + 1 + (scanTokens max data []).2)
      else ([], 0) := by
  simp [scanTokens]

theorem scanTokens_cons_ne (max : Nat) (b : UInt8) (data cur : GoString) (hb : b ≠ LF) :
    scanTokens max (b :: data) cur = scanTokens max data (cur ++ [b]) := by
  simp [scanTokens, hb]

/-- Bytes already read and free of line feeds can be handed back to the scanner. -/
theorem scanTokens_cur (max : Nat) (cur data c0 : GoString) (hcur : LF ∉ cur) :
    scanTokens max (cur ++ data) c0 = scanTokens max data (c0 ++ cur) := by
  induction cur generalizing c0 with
  | nil => simp
  | cons b cur ih =>
    have hb : b ≠ LF := fun h => hcur (by simp [h])
    have hc : LF ∉ cur := fun h => hcur (List.mem_cons_of_mem _ h)
    rw [List.cons_append, scanTokens_cons_ne max b _ _ hb, ih _ hc]
    simp

/-- Scanning a file that grew: when the old content `A` is empty or ends with a line feed,
the scan of `A ++ B` is the scan of `A` followed by the scan of what lies after the offset
that the scan of `A` reached. -/
theorem scanTokens_append (max : Nat) (B : GoString) (A cur : GoString)
    (hcur : LF ∉ cur) (hA : (A = [] ∧ cur = []) ∨ A.getLast? = some LF) :
    scanTokens max (A ++ B) cur =
      ((scanTokens max A cur).1 ++
          (scanTokens max ((cur ++ A ++ B).drop (scanTokens max A cur).2) []).1,
        (scanTokens max A cur).2 +
          (scanTokens max ((cur ++ A ++ B).drop (scanTokens max A cur).2) []).2) := by
  induction A generalizing cur with
  | nil =>
    rcases hA with ⟨_, hc⟩ | hA
    · subst hc
      simp [scanTokens_nil]
    · simp at hA
  | cons b A ih =>
    have hlast : (b :: A).getLast? = some LF := by
      rcases hA with ⟨h, _⟩ | hA
      · cases h
      · exact hA
    by_cases hb : b = LF
    · subst hb
      rw [List.cons_append, scanTokens_cons_LF, scanTokens_cons_LF]
      by_cases hlen : cur.length < max
      · have hA' : (A = [] ∧ ([] : GoString) = []) ∨ A.getLast? = some LF := by
          cases A with
          | nil => exact Or.inl ⟨rfl, rfl⟩
          | cons c A => right; simpa [List.getLast?_cons_cons] using hlast
        have := ih [] (by simp) hA'
        simp only [if_pos hlen, List.nil_append] at this ⊢
        have hdrop : (cur ++ LF :: A ++ B).drop (cur.length + 1 + (scanTokens max A []).2) =
            (A ++ B).drop (scanTokens max A []).2 := by
          have : cur ++ LF :: A ++ B = (cur ++ [LF]) ++ (A ++ B) := by simp
          rw [this, show cur.length + 1 + (scanTokens max A []).2 =
            (cur ++ [LF]).length + (scanTokens max A []).2 by simp, List.drop_append]
        rw [hdrop, this]
        simp [Nat.add_assoc]
      · have h0 : scanTokens max (cur ++ LF :: (A ++ B)) [] = ([], 0) := by
          rw [scanTokens_cur max cur _ [] hcur, scanTokens_cons_LF]
          simp [hlen]
        simp [if_neg hlen, h0]
    · have hAne : A ≠ [] := by
        rintro rfl
        simp at hlast
        exact hb hlast
      have hA' : (A = [] ∧ cur ++ [b] = []) ∨ A.getLast? = some LF := by
        right
        cases A with
        | nil => exact absurd rfl hAne
        | cons c A => simpa [List.getLast?_cons_cons] using hlast
      have hcur' : LF ∉ cur ++ [b] := by
        simp only [List.mem_append, List.mem_singleton, not_or]
        exact ⟨hcur, fun h => hb h.symm⟩
      rw [List.cons_append, scanTokens_cons_ne max b _ _ hb, scanTokens_cons_ne max b _ _ hb,
        ih _ hcur' hA']
      simp

/-- When no block of the file free of line feeds reaches the buffer limit, the scan
consumes every byte. -/
theorem scanTokens_advance (max : Nat) (data cur : GoString) (hcur : LF ∉ cur)
    (hfit : ∀ l, l <:+: cur ++ data → LF ∉ l → l.length < max) :
    (scanTokens max data cur).2 = cur.length + data.length := by
  induction data generalizing cur with
  | nil =>
    have hc : cur.length < max := hfit cur (by simp) hcur
    by_cases h : cur = []
    · simp [scanTokens, h]
    · simp [scanTokens, h, hc]
  | cons b data ih =>
    by_cases hb : b = LF
    · subst hb
      have hc : cur.length < max := hfit cur ⟨[], LF :: data, by simp⟩ hcur
      rw [scanTokens_cons_LF, if_pos hc]
      have := ih [] (by simp) (fun l hl hn => hfit l (by
        obtain ⟨p, q, hpq⟩ := hl
        simp only [List.nil_append] at hpq
        exact ⟨cur ++ LF :: p, q, by simp [← hpq]⟩) hn)
      simp only [this]
      simp
      omega
    · have hcur' : LF ∉ cur ++ [b] := by
        simp only [List.mem_append, List.mem_singleton, not_or]
        exact ⟨hcur, fun h => hb h.symm⟩
      rw [scanTokens_cons_ne max b _ _ hb, ih _ hcur' (by simpa using hfit)]
      simp
      omega

/-- A line that reaches the buffer limit stops the scan: nothing more is read. -/
theorem scanTokens_long_line (max n : Nat) (b : UInt8) (hb : b ≠ LF) (rest : GoString) :
    ∀ cur : GoString, max ≤ cur.length + n →
      scanTokens max (List.replicate n b ++ LF :: rest) cur = ([], 0) := by
  induction n with
  | zero =>
    intro cur hn
    have : ¬ cur.length < max := by omega
    simp [scanTokens_cons_LF, this]
  | succ n ih =>
    intro cur hn
    rw [List.replicate_succ, List.cons_append, scanTokens_cons_ne max b _ _ hb]
    exact ih _ (by simp; omega)

theorem seek_within (L : Lib) (content : GoString) (start : Int) (h0 : 0 ≤ start)
    (hle : start ≤ (content.length : Int)) :
    seek L content start = content.drop start.toNat := by
  have h : ¬ start < 0 := by omega
  simp [seek, h, hle]

theorem seek_zero (L : Lib) (content : GoString) : seek L content 0 = content := by
  rw [seek_within L content 0 (le_refl _) (by omega)]
  rfl

theorem endingPoint_within (content : GoString) (start : Int) (advance : Nat) (h0 : 0 ≤ start)
    (hle : start ≤ (content.length : Int)) :
    endingPoint content start advance = start + (advance : Int) := by
  simp [endingPoint, h0, hle]

/-- The scan does not consume more bytes than it is given. -/
theorem scanTokens_advance_le (max : Nat) (data : GoString) :
    ∀ cur : GoString, (scanTokens max data cur).2 ≤ cur.length + data.length := by
  induction data with
  | nil =>
    intro cur
    simp only [scanTokens]
    split_ifs <;> simp
  | cons b data ih =>
    intro cur
    by_cases hb : b = LF
    · subst hb
      rw [scanTokens_cons_LF]
      split_ifs
      · have := ih []
        simp only [List.length_nil, List.length_cons] at this ⊢
        omega
      · simp
    · rw [scanTokens_cons_ne max b _ _ hb]
      have := ih (cur ++ [b])
      simp only [List.length_append, List.length_cons, List.length_nil] at this ⊢
      omega

theorem oneFile_self (path content : GoString) : oneFile path content path = some content := by
  simp [oneFile]

theorem collectMatches_filter (L : Lib) (s : List GoString) (tokens r : List GoString)
    (h : collectMatches L s tokens = .ok r) :
    r = tokens.filter (fun l => decide (FindMatch L l s = .ok true)) := by
  induction tokens generalizing r with
  | nil => simp [collectMatches] at h; simp [h]
  | cons t ts ih =>
    simp only [collectMatches] at h
    cases hf : FindMatch L t s with
    | error p => simp [hf] at h
    | ok found =>
      cases hc : collectMatches L s ts with
      | error p => simp [hf, hc] at h
      | ok r' =>
        simp only [hf, hc, Except.ok.injEq] at h
        have := ih r' hc
        cases found <;> simp_all [List.filter_cons]

theorem collectMatches_total (L : Lib) (s : List GoString) (tokens : List GoString)
    (h : ∀ l ∈ tokens, ∃ b, FindMatch L l s = .ok b) :
    ∃ r, collectMatches L s tokens = .ok r := by
  induction tokens with
  | nil => exact ⟨[], rfl⟩
  | cons t ts ih =>
    obtain ⟨b, hb⟩ := h t (List.mem_cons_self _ _)
    obtain ⟨r, hr⟩ := ih (fun l hl => h l (List.mem_cons_of_mem _ hl))
    exact ⟨if b = true then t :: r else r, by simp only [collectMatches, hb, hr]⟩

theorem collectMatches_append (L : Lib) (s : List GoString) (t1 t2 a1 a2 : List GoString)
    (h1 : collectMatches L s t1 = .ok a1) (h2 : collectMatches L s t2 = .ok a2) :
    collectMatches L s (t1 ++ t2) = .ok (a1 ++ a2) := by
  induction t1 generalizing a1 with
  | nil => simp [collectMatches] at h1; subst h1; simpa using h2
  | cons t ts ih =>
    simp only [collectMatches] at h1
    cases hf : FindMatch L t s with
    | error p => simp [hf] at h1
    | ok found =>
      cases hc : collectMatches L s ts with
      | error p => simp [hf, hc] at h1
      | ok r' =>
        simp only [hf, hc, Except.ok.injEq] at h1
        subst h1
        have hih := ih r' hc
        rw [List.cons_append]
        simp only [collectMatches, hf, hih]
        cases found <;> simp

theorem FilterMatches_filter (L : Lib) (i : List GoString) (ms r : List GoString)
    (h : FilterMatches L i ms = .ok r) :
    r = ms.filter (fun m => decide (FindMatch L m i = .ok false)) := by
  induction ms generalizing r with
  | nil => simp [FilterMatches] at h; simp [h]
  | cons m ms ih =>
    simp only [FilterMatches] at h
    cases hf : FindMatch L m i with
    | error p => simp [hf] at h
    | ok found =>
      cases found with
      | true =>
        simp only [hf] at h
        simp [List.filter_cons, hf, ih r h]
      | false =>
        cases hc : FilterMatches L i ms with
        | error p => simp [hf, hc] at h
        | ok r' =>
          simp only [hf, hc, Except.ok.injEq] at h
          simp [List.filter_cons, hf, ← h, ← ih r' hc]

theorem FilterMatches_total (L : Lib) (i : List GoString) (ms : List GoString)
    (h : ∀ m ∈ ms, ∃ b, FindMatch L m i = .ok b) :
    ∃ r, FilterMatches L i ms = .ok r := by
  induction ms with
  | nil => exact ⟨[], rfl⟩
  | cons m ms ih =>
    obtain ⟨b, hb⟩ := h m (List.mem_cons_self _ _)
    obtain ⟨r, hr⟩ := ih (fun l hl => h l (List.mem_cons_of_mem _ hl))
    cases b with
    | true => exact ⟨r, by simp only [FilterMatches, hb, hr]⟩
    | false => exact ⟨m :: r, by simp only [FilterMatches, hb, hr]⟩

theorem FilterMatches_append (L : Lib) (i : List GoString) (a1 a2 m1 m2 : List GoString)
    (h1 : FilterMatches L i a1 = .ok m1) (h2 : FilterMatches L i a2 = .ok m2) :
    FilterMatches L i (a1 ++ a2) = .ok (m1 ++ m2) := by
  induction a1 generalizing m1 with
  | nil => simp [FilterMatches] at h1; subst h1; simpa using h2
  | cons m ms ih =>
    simp only [FilterMatches] at h1
    cases hf : FindMatch L m i with
    | error p => simp [hf] at h1
    | ok found =>
      cases found with
      | true =>
        simp only [hf] at h1
        have hih := ih m1 h1
        rw [List.cons_append]
        simp only [FilterMatches, hf, hih]
      | false =>
        cases hc : FilterMatches L i ms with
        | error p => simp [hf, hc] at h1
        | ok r' =>
          simp only [hf, hc, Except.ok.injEq] at h1
          subst h1
          have hih := ih r' hc
          rw [List.cons_append]
          simp only [FilterMatches, hf, hih, List.cons_append]

/-- What a returning call of `ReadFileForMatches` on an existing file did. -/
theorem ReadFileForMatches_ok (L : Lib) (fs : FileSystem) (file content : GoString)
    (s i : List GoString) (start : Int) (ms : List GoString) (e : Int)
    (hfile : fs file = some content) :
    ReadFileForMatches L fs file s i start = .ok (ms, e) ↔
      ∃ matchArr,
        collectMatches L s (scanTokens MaxScanTokenSize (seek L content start) []).1 =
          .ok matchArr ∧
        FilterMatches L i matchArr = .ok ms ∧
        e = endingPoint content start (scanTokens MaxScanTokenSize (seek L content start) []).2 := by
  unfold ReadFileForMatches
  simp only [hfile]
  cases hc : collectMatches L s (scanTokens MaxScanTokenSize (seek L content start) []).1 with
  | error p => simp
  | ok matchArr =>
    cases hf : FilterMatches L i matchArr with
    | error p => simp [hf]
    | ok finalArr =>
      simp only [Except.ok.injEq, Prod.mk.injEq, exists_eq_left', hf]
      constructor
      · rintro ⟨h1, h2⟩; exact ⟨h1, h2.symm⟩
      · rintro ⟨h1, h2⟩; exact ⟨h1, h2.symm⟩

/-- A start offset that the file system refuses: `Seek` fails, the scan starts at byte 0
and the end offset is the refused offset plus the bytes read. A negative offset behaves
alike. -/
theorem ReadFileForMatches_refused_seek :
    ReadFileForMatches asciiLib (oneFile (bytes "app.log") (bytes "ERROR a\nERROR b\n"))
      (bytes "app.log") [bytes "error"] [] 17592186044416 =
      .ok ([bytes "ERROR a", bytes "ERROR b"], 17592186044432) ∧
    ReadFileForMatches asciiLib (oneFile (bytes "app.log") (bytes "ERROR a\nERROR b\n"))
      (bytes "app.log") [bytes "error"] [] (-5) =
      .ok ([bytes "ERROR a", bytes "ERROR b"], 11) := by
  decide

/-! ## Claims on the term matcher, the validation and the truncation reset -/

/-- C8: for well-formed terms `FindMatch` returns a boolean, which is true exactly when
the expression compiled from some term in lower case matches the line in lower case;
on the empty term list it is false for every line; and the result is the same for a
line and terms that differ from the given ones in letter case only, that is, that have
the same lower-case forms. -/
theorem FindMatch_case_insensitive (L : Lib) (line : GoString) (terms : List GoString)
    (hwf : ∀ t ∈ terms, WellFormed L t) :
    (∃ b, FindMatch L line terms = .ok b ∧
      (b = true ↔ ∃ t ∈ terms, ∃ re, L.Compile (L.ToLower t) = some re ∧
        re (L.ToLower line) = true)) ∧
    (∀ l, FindMatch L l [] = .ok false) ∧
    (∀ line' terms', L.ToLower line' = L.ToLower line →
      terms'.map L.ToLower = terms.map L.ToLower →
      FindMatch L line' terms' = FindMatch L line terms) := by
  refine ⟨⟨_, FindMatch_wellFormed L line terms hwf, ?_⟩, fun _ => rfl, ?_⟩
  · rw [List.any_eq_true]
    constructor
    · rintro ⟨t, ht, hm⟩
      refine ⟨t, ht, ?_⟩
      unfold termMatches at hm
      cases hc : L.Compile (L.ToLower t) with
      | none => rw [hc] at hm; cases hm
      | some re => rw [hc] at hm; exact ⟨re, rfl, hm⟩
    · rintro ⟨t, ht, re, hc, hm⟩
      exact ⟨t, ht, by simp [termMatches, hc, hm]⟩
  · intro line' terms' hl ht
    exact FindMatch_lower_congr L line line' terms terms' hl ht

theorem FindMatch_case_insensitive_witness :
    (∀ t ∈ [bytes "warn", bytes "Error"], WellFormed asciiLib t) ∧
    ((∃ b, FindMatch asciiLib (bytes "disk ERROR 5") [bytes "warn", bytes "Error"] = .ok b ∧
      (b = true ↔ ∃ t ∈ [bytes "warn", bytes "Error"], ∃ re,
        asciiLib.Compile (asciiLib.ToLower t) = some re ∧
        re (asciiLib.ToLower (bytes "disk ERROR 5")) = true)) ∧
    (∀ l, FindMatch asciiLib l [] = .ok false) ∧
    (∀ line' terms', asciiLib.ToLower line' = asciiLib.ToLower (bytes "disk ERROR 5") →
      terms'.map asciiLib.ToLower = [bytes "warn", bytes "Error"].map asciiLib.ToLower →
      FindMatch asciiLib line' terms' =
        FindMatch asciiLib (bytes "disk ERROR 5") [bytes "warn", bytes "Error"])) :=
  ⟨by decide, FindMatch_case_insensitive asciiLib (bytes "disk ERROR 5")
    [bytes "warn", bytes "Error"] (by decide)⟩

/-- C7 (what the code does): when `FindMatch` reaches a term that does not compile, that
is, when the terms before it compile and do not match the line, it does not skip the
term: it panics with a nil pointer dereference, whatever terms follow. In particular a
list made of one malformed term gives a panic, not `false`. -/
theorem FindMatch_malformed_term_panics (L : Lib) (line : GoString) (pre : List GoString)
    (t : GoString) (rest : List GoString)
    (hpre : ∀ u ∈ pre, termMatches L line u = false ∧ WellFormed L u)
    (ht : L.Compile (L.ToLower t) = none) :
    FindMatch L line (pre ++ t :: rest) = .error GoPanic.nilPointerDereference := by
  induction pre with
  | nil => simp [FindMatch, ht]
  | cons u us ih =>
    have hu := hpre u (List.mem_cons_self _ _)
    have hus : ∀ v ∈ us, termMatches L line v = false ∧ WellFormed L v :=
      fun v hv => hpre v (List.mem_cons_of_mem _ hv)
    have h1 := hu.1
    have h2 := hu.2
    unfold WellFormed at h2
    unfold termMatches at h1
    cases hc : L.Compile (L.ToLower u) with
    | none => rw [hc] at h2; cases h2
    | some re =>
      rw [hc] at h1
      simp only at h1
      simp [FindMatch, hc, h1, ih hus]

theorem FindMatch_malformed_term_panics_witness :
    (∀ u ∈ [bytes "warn"], termMatches asciiLib (bytes "disk ERROR 5") u = false ∧
      WellFormed asciiLib u) ∧
    asciiLib.Compile (asciiLib.ToLower (bytes "(")) = none ∧
    FindMatch asciiLib (bytes "disk ERROR 5") ([bytes "warn"] ++ bytes "(" :: [bytes "error"]) =
      .error GoPanic.nilPointerDereference :=
  ⟨by decide, rfl,
    FindMatch_malformed_term_panics asciiLib (bytes "disk ERROR 5") [bytes "warn"] (bytes "(")
      [bytes "error"] (by decide) rfl⟩

/-- C9: `CheckSearchAndIgnoreDuplicates` returns true exactly when some string is an element
of both lists (equality of byte sequences), false exactly when the lists are disjoint, and
the result does not depend on the file location. -/
theorem CheckSearchAndIgnoreDuplicates_iff (searchTerms ignoreTerms : List GoString)
    (file : GoString) :
    (CheckSearchAndIgnoreDuplicates searchTerms ignoreTerms file = true ↔
      ∃ t, t ∈ searchTerms ∧ t ∈ ignoreTerms) ∧
    (CheckSearchAndIgnoreDuplicates searchTerms ignoreTerms file = false ↔
      ∀ t, t ∈ searchTerms → t ∉ ignoreTerms) ∧
    (∀ file', CheckSearchAndIgnoreDuplicates searchTerms ignoreTerms file' =
      CheckSearchAndIgnoreDuplicates searchTerms ignoreTerms file) := by
  refine ⟨CheckSearchAndIgnoreDuplicates_true _ _ _, ?_, fun _ => rfl⟩
  rw [← Bool.not_eq_true, CheckSearchAndIgnoreDuplicates_true]
  constructor
  · intro h t hs hi
    exact h ⟨t, hs, hi⟩
  · rintro h ⟨t, hs, hi⟩
    exact h t hs hi

/-- C6: for a stored offset `o ≥ 0` and a file of current size `s`, the start offset that
`main` passes to `ReadFileForMatches` is 0 when `s < o` and `o` otherwise: the target is
processed with the result of `ReadFileForMatches` called at that offset, which is never
negative and never greater than `s`. -/
theorem processTarget_start_offset (L : Lib) (mail : Nat → Bool) (goos : GOOS)
    (loc : LogLocation) (file : GoString) (o s : Int) (w : World)
    (ho : 0 ≤ o) (hs : CheckFileLength w.fs file = s) :
    0 ≤ s ∧
    processTarget L mail goos loc file o w =
      afterScan L mail goos loc file
        (ReadFileForMatches L w.fs file loc.SearchTerms loc.IgnoreTerms
          (if s < o then 0 else o)) w ∧
    0 ≤ (if s < o then 0 else o) ∧ (if s < o then 0 else o) ≤ s := by
  have hs0 : 0 ≤ s := by
    rw [← hs]
    unfold CheckFileLength
    cases w.fs file with
    | none => exact le_refl _
    | some content => exact Int.ofNat_nonneg _
  refine ⟨hs0, ?_, ?_, ?_⟩
  · simp only [processTarget, truncationReset, hs]
  · split_ifs
    · exact le_refl _
    · exact ho
  · split_ifs with h
    · exact hs0
    · omega

set_option maxRecDepth 100000 in
theorem processTarget_start_offset_witness :
    (0 : Int) ≤ 500 ∧
    CheckFileLength truncatedWorld.fs (bytes "app.log") = 200 ∧
    ((0 : Int) ≤ 200 ∧
      processTarget asciiLib alwaysSucceeds GOOS.windows scenarioTarget (bytes "app.log") 500
          truncatedWorld =
        afterScan asciiLib alwaysSucceeds GOOS.windows scenarioTarget (bytes "app.log")
          (ReadFileForMatches asciiLib truncatedWorld.fs (bytes "app.log")
            scenarioTarget.SearchTerms scenarioTarget.IgnoreTerms
            (if (200 : Int) < 500 then 0 else 500)) truncatedWorld ∧
      (0 : Int) ≤ (if (200 : Int) < 500 then 0 else 500) ∧
      (if (200 : Int) < 500 then (0 : Int) else 500) ≤ 200) ∧
    (if (200 : Int) < 500 then (0 : Int) else 500) = 0 ∧
    ReadFileForMatches asciiLib truncatedWorld.fs (bytes "app.log")
      scenarioTarget.SearchTerms scenarioTarget.IgnoreTerms 0 =
        .ok ([bytes "ERROR disk is full"], 200) ∧
    ReadFileForMatches asciiLib truncatedWorld.fs (bytes "app.log")
      scenarioTarget.SearchTerms scenarioTarget.IgnoreTerms 500 = .ok ([], 500) ∧
    (processTarget asciiLib alwaysSucceeds GOOS.windows scenarioTarget (bytes "app.log") 500
        truncatedWorld).map (fun r => (r.1, r.2.trace)) =
      .ok (some 200, [Event.SendEmailAlert [bytes "ERROR disk is full"] [],
        Event.ClearMatchesFile (bytes "app.log")]) :=
  ⟨by decide, by decide,
    processTarget_start_offset asciiLib alwaysSucceeds GOOS.windows scenarioTarget
      (bytes "app.log") 500 200 truncatedWorld (by decide) (by decide),
    by decide, by decide, by decide, by decide⟩

/-! ## Claims on the incremental scanner -/

/-- C3: on an existing file and for a start offset between 0 and the size of the file,
whenever `ReadFileForMatches` returns, its match list is, in file order, the lines of the
content after the first `start` bytes for which `FindMatch` on the search terms is true and
`FindMatch` on the ignore terms is false, and it does return when the terms are well
formed; whenever `FilterMatches` returns, its result is a sublist of its argument in which
`FindMatch` on the ignore terms is false for every line, and it does return when the
ignore terms are well formed. -/
theorem ReadFileForMatches_ignore_wins (L : Lib) (fs : FileSystem) (file content : GoString)
    (s i : List GoString) (start : Int) (hfile : fs file = some content)
    (h0 : 0 ≤ start) (hle : start ≤ (content.length : Int)) :
    (∀ ms e, ReadFileForMatches L fs file s i start = .ok (ms, e) →
      ms = (scanTokens MaxScanTokenSize (content.drop start.toNat) []).1.filter
        (fun l => decide (FindMatch L l s = .ok true) && decide (FindMatch L l i = .ok false))) ∧
    ((∀ t ∈ s, WellFormed L t) → (∀ t ∈ i, WellFormed L t) →
      ∃ ms e, ReadFileForMatches L fs file s i start = .ok (ms, e)) ∧
    (∀ ms r, FilterMatches L i ms = .ok r →
      r.Sublist ms ∧ ∀ m ∈ r, FindMatch L m i = .ok false) ∧
    ((∀ t ∈ i, WellFormed L t) → ∀ ms, ∃ r, FilterMatches L i ms = .ok r) := by
  refine ⟨?_, ?_, ?_, ?_⟩
  · intro ms e h
    obtain ⟨matchArr, hc, hf, _⟩ := (ReadFileForMatches_ok L fs file content s i start ms e hfile).1 h
    rw [seek_within L content start h0 hle] at hc
    rw [FilterMatches_filter L i matchArr ms hf, collectMatches_filter L s _ matchArr hc,
      List.filter_filter]
    congr 1
    funext l
    exact Bool.and_comm _ _
  · intro hs hi
    obtain ⟨matchArr, hc⟩ := collectMatches_total L s
      (scanTokens MaxScanTokenSize (seek L content start) []).1
      (fun l _ => ⟨_, FindMatch_wellFormed L l s hs⟩)
    obtain ⟨r, hr⟩ := FilterMatches_total L i matchArr
      (fun l _ => ⟨_, FindMatch_wellFormed L l i hi⟩)
    exact ⟨r, _, (ReadFileForMatches_ok L fs file content s i start r _ hfile).2
      ⟨matchArr, hc, hr, rfl⟩⟩
  · intro ms r h
    rw [FilterMatches_filter L i ms r h]
    refine ⟨List.filter_sublist _, ?_⟩
    intro m hm
    simpa using (List.mem_filter.1 hm).2
  · intro hi ms
    exact FilterMatches_total L i ms (fun l _ => ⟨_, FindMatch_wellFormed L l i hi⟩)

set_option maxRecDepth 100000 in
theorem ReadFileForMatches_ignore_wins_witness :
    oneFile (bytes "app.log") scenarioLog (bytes "app.log") = some scenarioLog ∧
    (0 : Int) ≤ 25 ∧ (25 : Int) ≤ (scenarioLog.length : Int) ∧
    ReadFileForMatches asciiLib (oneFile (bytes "app.log") scenarioLog) (bytes "app.log")
      [bytes "ERROR"] [bytes "disk"] 25 =
      .ok ([bytes "10:00:03 ERROR: transient timeout"], 98) ∧
    [bytes "10:00:03 ERROR: transient timeout"] =
      (scanTokens MaxScanTokenSize (scenarioLog.drop (25 : Int).toNat) []).1.filter
        (fun l => decide (FindMatch asciiLib l [bytes "ERROR"] = .ok true) &&
          decide (FindMatch asciiLib l [bytes "disk"] = .ok false)) ∧
    ReadFileForMatches asciiLib (oneFile (bytes "app.log") scenarioLog) (bytes "app.log")
      [bytes "ERROR"] [bytes "ERROR: transient"] 0 =
      .ok ([bytes "10:00:01 ERROR: disk /dev/sda1 is full"], 98) :=
  ⟨by decide, by decide, by decide, by decide,
    (ReadFileForMatches_ignore_wins asciiLib (oneFile (bytes "app.log") scenarioLog)
      (bytes "app.log") scenarioLog [bytes "ERROR"] [bytes "disk"] 25
      (by decide) (by decide) (by decide)).1 [bytes "10:00:03 ERROR: transient timeout"] 98
        (by decide),
    by decide⟩

/-- C2 as stated fails: the file first holds `ERR` and then grows to `ERROR` followed by a
line feed. The first scan reads the unfinished line `ERR` and ends at offset 3, the second
reads `OR` from offset 3; neither reports a match, while one scan of the grown file from
offset 0 reports the line `ERROR`. Moreover the end offset is not always the length of
the file: on a file made of one line of 65536 bytes the scan reads nothing and ends at
offset 0. -/
theorem ReadFileForMatches_incremental_counterexample :
    (ReadFileForMatches asciiLib (oneFile (bytes "app.log") (bytes "ERR")) (bytes "app.log")
      [bytes "ERROR"] [] 0 = .ok ([], 3) ∧
    ReadFileForMatches asciiLib (oneFile (bytes "app.log") (bytes "ERR" ++ bytes "OR\n"))
      (bytes "app.log") [bytes "ERROR"] [] 3 = .ok ([], 6) ∧
    ReadFileForMatches asciiLib (oneFile (bytes "app.log") (bytes "ERR" ++ bytes "OR\n"))
      (bytes "app.log") [bytes "ERROR"] [] 0 = .ok ([bytes "ERROR"], 6) ∧
    ([] ++ [] : List GoString) ≠ [bytes "ERROR"]) ∧
    (ReadFileForMatches asciiLib
      (oneFile (bytes "app.log") (([] : GoString) ++ (List.replicate 65536 97 ++ [LF])))
      (bytes "app.log") [bytes "a"] [] 0 = .ok ([], 0) ∧
    (0 : Int) ≠ ((([] : GoString) ++ (List.replicate 65536 97 ++ [LF])).length : Int)) := by
  refine ⟨by decide, ?_, ?_⟩
  · refine (ReadFileForMatches_ok asciiLib _ (bytes "app.log")
      (([] : GoString) ++ (List.replicate 65536 97 ++ [LF])) [bytes "a"] [] 0 [] 0
      (oneFile_self _ _)).2 ⟨[], ?_, rfl, ?_⟩
    · rw [seek_zero, List.nil_append,
        scanTokens_long_line MaxScanTokenSize 65536 97 (by decide) [] [] (by decide)]
      rfl
    · rw [seek_zero, List.nil_append,
        scanTokens_long_line MaxScanTokenSize 65536 97 (by decide) [] [] (by decide),
        endingPoint_within _ 0 0 (le_refl _) (Int.ofNat_nonneg _)]
      rfl
  · rw [List.nil_append, List.length_append, List.length_replicate, List.length_singleton]
    norm_num

/-- C2 (amended): when the old content `A` is empty or ends with a line feed, and the scan
of `A` from offset 0 returns `(m1, e1)` and the scan of `A ++ B` from `e1` returns
`(m2, e2)`, then the scan of `A ++ B` from offset 0 returns `(m1 ++ m2, e2)`; and `e2` is
the length of `A ++ B` when no block of `A ++ B` free of line feeds reaches the buffer limit
of the scanner. -/
theorem ReadFileForMatches_incremental (L : Lib) (fs1 fs2 : FileSystem) (file A B : GoString)
    (s i : List GoString) (m1 m2 : List GoString) (e1 e2 : Int)
    (h1file : fs1 file = some A) (h2file : fs2 file = some (A ++ B))
    (hA : A = [] ∨ A.getLast? = some LF)
    (h1 : ReadFileForMatches L fs1 file s i 0 = .ok (m1, e1))
    (h2 : ReadFileForMatches L fs2 file s i e1 = .ok (m2, e2)) :
    ReadFileForMatches L fs2 file s i 0 = .ok (m1 ++ m2, e2) ∧
    ((∀ l, l <:+: A ++ B → LF ∉ l → l.length < MaxScanTokenSize) →
      e2 = ((A ++ B).length : Int)) := by
  obtain ⟨a1, hc1, hf1, he1⟩ := (ReadFileForMatches_ok L fs1 file A s i 0 m1 e1 h1file).1 h1
  obtain ⟨a2, hc2, hf2, he2⟩ :=
    (ReadFileForMatches_ok L fs2 file (A ++ B) s i e1 m2 e2 h2file).1 h2
  have hseek0 : ∀ c : GoString, seek L c 0 = c := fun c => seek_zero L c
  rw [hseek0] at hc1 he1
  rw [endingPoint_within A 0 _ (le_refl _) (Int.ofNat_nonneg _)] at he1
  have hn1 : (scanTokens MaxScanTokenSize A []).2 ≤ (A ++ B).length := by
    have := scanTokens_advance_le MaxScanTokenSize A []
    simp only [List.length_nil, List.length_append] at this ⊢
    omega
  have he1' : e1 = (((scanTokens MaxScanTokenSize A []).2 : Nat) : Int) := by
    rw [he1]
    simp
  have h1nn : 0 ≤ e1 := by rw [he1']; exact Int.ofNat_nonneg _
  have h1le : e1 ≤ ((A ++ B).length : Int) := by rw [he1']; exact_mod_cast hn1
  have hseek1 : seek L (A ++ B) e1 =
      (A ++ B).drop (scanTokens MaxScanTokenSize A []).2 := by
    rw [seek_within L (A ++ B) e1 h1nn h1le, he1']
    simp
  rw [hseek1] at hc2 he2
  rw [endingPoint_within (A ++ B) e1 _ h1nn h1le] at he2
  have happ := scanTokens_append MaxScanTokenSize B A [] (by simp)
    (hA.elim (fun h => Or.inl ⟨h, rfl⟩) Or.inr)
  simp only [List.nil_append] at happ
  have hend : e2 = 0 + (((scanTokens MaxScanTokenSize (A ++ B) []).2 : Nat) : Int) := by
    rw [he2, he1, happ]
    push_cast
    ring
  refine ⟨?_, ?_⟩
  · refine (ReadFileForMatches_ok L fs2 file (A ++ B) s i 0 (m1 ++ m2) e2 h2file).2
      ⟨a1 ++ a2, ?_, FilterMatches_append L i a1 a2 m1 m2 hf1 hf2, ?_⟩
    · rw [hseek0, happ]
      exact collectMatches_append L s _ _ a1 a2 hc1 hc2
    · rw [hseek0, endingPoint_within (A ++ B) 0 _ (le_refl _) (Int.ofNat_nonneg _)]
      exact hend
  · intro hfit
    rw [hend, scanTokens_advance MaxScanTokenSize (A ++ B) [] (by simp) (by simpa using hfit)]
    simp

theorem ReadFileForMatches_incremental_witness :
    oneFile (bytes "app.log") (bytes "ERROR one\r\n") (bytes "app.log") =
      some (bytes "ERROR one\r\n") ∧
    oneFile (bytes "app.log") (bytes "ERROR one\r\n" ++ bytes "info\nERROR two")
      (bytes "app.log") = some (bytes "ERROR one\r\n" ++ bytes "info\nERROR two") ∧
    (bytes "ERROR one\r\n" = [] ∨ (bytes "ERROR one\r\n").getLast? = some LF) ∧
    ReadFileForMatches asciiLib (oneFile (bytes "app.log") (bytes "ERROR one\r\n"))
      (bytes "app.log") [bytes "error"] [] 0 = .ok ([bytes "ERROR one"], 11) ∧
    ReadFileForMatches asciiLib
      (oneFile (bytes "app.log") (bytes "ERROR one\r\n" ++ bytes "info\nERROR two"))
      (bytes "app.log") [bytes "error"] [] 11 = .ok ([bytes "ERROR two"], 25) ∧
    (ReadFileForMatches asciiLib
      (oneFile (bytes "app.log") (bytes "ERROR one\r\n" ++ bytes "info\nERROR two"))
      (bytes "app.log") [bytes "error"] [] 0 =
        .ok ([bytes "ERROR one"] ++ [bytes "ERROR two"], 25) ∧
    ((∀ l, l <:+: bytes "ERROR one\r\n" ++ bytes "info\nERROR two" → LF ∉ l →
        l.length < MaxScanTokenSize) →
      (25 : Int) = ((bytes "ERROR one\r\n" ++ bytes "info\nERROR two").length : Int))) :=
  ⟨by decide, by decide, by decide, by decide, by decide,
    ReadFileForMatches_incremental asciiLib (oneFile (bytes "app.log") (bytes "ERROR one\r\n"))
      (oneFile (bytes "app.log") (bytes "ERROR one\r\n" ++ bytes "info\nERROR two"))
      (bytes "app.log") (bytes "ERROR one\r\n")
      (bytes "info\nERROR two") [bytes "error"] [] [bytes "ERROR one"] [bytes "ERROR two"] 11 25
      (by decide) (by decide) (by decide) (by decide) (by decide)⟩

/-! ## Highlighting: lemmas -/

theorem splitSpace_ne_nil (s : GoString) : splitSpace s ≠ [] := by
  cases s with
  | nil => simp [splitSpace]
  | cons b s =>
    simp only [splitSpace]
    split_ifs
    · simp
    · split <;> simp

theorem joinSpace_cons (a : GoString) (arr : List GoString) (h : arr ≠ []) :
    joinSpace (a :: arr) = a ++ SP :: joinSpace arr := by
  cases arr with
  | nil => exact absurd rfl h
  | cons b arr => rfl

theorem joinSpace_cons_cons (b : UInt8) (a : GoString) (arr : List GoString) :
    joinSpace ((b :: a) :: arr) = b :: joinSpace (a :: arr) := by
  cases arr with
  | nil => rfl
  | cons c arr => rfl

theorem joinSpace_splitSpace (s : GoString) : joinSpace (splitSpace s) = s := by
  induction s with
  | nil => rfl
  | cons b s ih =>
    simp only [splitSpace]
    split_ifs with hb
    · rw [joinSpace_cons _ _ (splitSpace_ne_nil s), ih, hb]
      rfl
    · cases hs : splitSpace s with
      | nil => exact absurd hs (splitSpace_ne_nil s)
      | cons a arr =>
        rw [hs] at ih
        simp only [joinSpace_cons_cons, ih]

theorem splitSpace_no_space (s : GoString) : ∀ a ∈ splitSpace s, SP ∉ a := by
  induction s with
  | nil => simp [splitSpace]
  | cons b s ih =>
    simp only [splitSpace]
    split_ifs with hb
    · intro a ha
      rcases List.mem_cons.1 ha with h | h
      · simp [h]
      · exact ih a h
    · cases hs : splitSpace s with
      | nil => exact absurd hs (splitSpace_ne_nil s)
      | cons a arr =>
        rw [hs] at ih
        intro x hx
        rcases List.mem_cons.1 hx with h | h
        · subst h
          intro hmem
          rcases List.mem_cons.1 hmem with h' | h'
          · exact hb h'.symm
          · exact ih a (List.mem_cons_self _ _) h'
        · exact ih x (List.mem_cons_of_mem _ h)

theorem colorLoop_map (L : Lib) (terms : List GoString) (arr r : List GoString)
    (h : colorLoop L terms arr = .ok r) :
    r = arr.map (fun a => if FindMatch L a terms = .ok true then span a else a) := by
  induction arr generalizing r with
  | nil => simp [colorLoop] at h; simp [h]
  | cons a arr ih =>
    simp only [colorLoop] at h
    cases hf : FindMatch L a terms with
    | error p => simp [hf] at h
    | ok found =>
      cases hc : colorLoop L terms arr with
      | error p => simp [hf, hc] at h
      | ok r' =>
        simp only [hf, hc, Except.ok.injEq] at h
        subst h
        have := ih r' hc
        cases found <;> simp [← this, hf]

theorem colorLoop_total (L : Lib) (terms : List GoString) (arr : List GoString)
    (h : ∀ a ∈ arr, ∃ b, FindMatch L a terms = .ok b) :
    ∃ r, colorLoop L terms arr = .ok r := by
  induction arr with
  | nil => exact ⟨[], rfl⟩
  | cons a arr ih =>
    obtain ⟨b, hb⟩ := h a (List.mem_cons_self _ _)
    obtain ⟨r, hr⟩ := ih (fun l hl => h l (List.mem_cons_of_mem _ hl))
    exact ⟨(if b = true then span a else a) :: r, by simp only [colorLoop, hb, hr]⟩

theorem ColorMatch_ok (L : Lib) (line : GoString) (terms : List GoString) (out : GoString)
    (h : ColorMatch L line terms = .ok out) :
    out = joinSpace ((splitSpace line).map
      (fun a => if FindMatch L a terms = .ok true then span a else a)) := by
  unfold ColorMatch at h
  cases hc : colorLoop L terms (splitSpace line) with
  | error p => simp [hc] at h
  | ok r =>
    simp only [hc, Except.ok.injEq] at h
    rw [← h, colorLoop_map L terms _ r hc]

theorem ColorMatch_total (L : Lib) (line : GoString) (terms : List GoString)
    (h : ∀ a ∈ splitSpace line, ∃ b, FindMatch L a terms = .ok b) :
    ∃ out, ColorMatch L line terms = .ok out := by
  obtain ⟨r, hr⟩ := colorLoop_total L terms (splitSpace line) h
  exact ⟨joinSpace r, by simp only [ColorMatch, hr]⟩

/-! ## Claims on highlighting -/

/-- C10 as stated fails: `ColorMatch` cuts the line at single spaces, it does not tokenize
by whitespace. A line with a run of two spaces and a tab comes back unchanged when no
piece matches, not with single spaces; and a piece that matches is wrapped together with
the tab it contains. -/
theorem ColorMatch_whitespace_counterexample :
    ColorMatch asciiLib (bytes "a  b\tc") [bytes "error"] = .ok (bytes "a  b\tc") ∧
    ColorMatch asciiLib (bytes "a  b\tc") [bytes "error"] ≠ .ok (bytes "a b c") ∧
    ColorMatch asciiLib (bytes "x  ERROR\ty") [bytes "error"] =
      .ok (bytes "x  <span style=color:#EC5C46 border>ERROR\ty</span>") := by
  decide

/-- C10 (amended): `ColorMatch` cuts the line at every single space byte, so that the pieces
contain no space and joined by one space give back the line (a run of spaces yields
empty pieces, a tab is not a separator); whenever it returns, its result is the pieces,
each wrapped in the span marker when `FindMatch` on it is true and untouched otherwise,
joined by one space; it returns when the terms are well formed; and when no piece matches
the result is the line itself, all its whitespace included. -/
theorem ColorMatch_cuts_at_single_spaces (L : Lib) (line : GoString)
    (searchTerms : List GoString) :
    (joinSpace (splitSpace line) = line ∧ ∀ a ∈ splitSpace line, SP ∉ a) ∧
    (∀ out, ColorMatch L line searchTerms = .ok out →
      out = joinSpace ((splitSpace line).map
        (fun a => if FindMatch L a searchTerms = .ok true then span a else a))) ∧
    ((∀ t ∈ searchTerms, WellFormed L t) → ∃ out, ColorMatch L line searchTerms = .ok out) ∧
    ((∀ a ∈ splitSpace line, FindMatch L a searchTerms = .ok false) →
      ColorMatch L line searchTerms = .ok line) := by
  refine ⟨⟨joinSpace_splitSpace line, splitSpace_no_space line⟩,
    ColorMatch_ok L line searchTerms, ?_, ?_⟩
  · intro hwf
    exact ColorMatch_total L line searchTerms
      (fun a _ => ⟨_, FindMatch_wellFormed L a searchTerms hwf⟩)
  · intro hno
    obtain ⟨out, hout⟩ := ColorMatch_total L line searchTerms (fun a ha => ⟨_, hno a ha⟩)
    rw [hout, ColorMatch_ok L line searchTerms out hout]
    have hmap : (splitSpace line).map
        (fun a => if FindMatch L a searchTerms = .ok true then span a else a) =
        splitSpace line := by
      conv_rhs => rw [← List.map_id (splitSpace line)]
      apply List.map_congr_left
      intro a ha
      simp [hno a ha]
    rw [hmap, joinSpace_splitSpace]

/-! ## Pending-match store: lemmas -/

theorem matches_path_eq (goos : GOOS) (fileName : GoString) :
    MakeMatchesFolder goos ++ bytes "/" ++ fileName = matchesPath goos ++ fileName := by
  have h : MakeMatchesFolder goos ++ bytes "/" = matchesPath goos := by
    cases goos <;> decide
  rw [h]

theorem splitCRLF_ne_nil (s : GoString) : splitCRLF s ≠ [] := by
  match s with
  | [] => simp [splitCRLF]
  | [b] => simp [splitCRLF]
  | b :: c :: s =>
    simp only [splitCRLF]
    split_ifs
    · simp
    · split <;> simp

theorem splitCRLF_cons_CRLF (d : GoString) : splitCRLF (CR :: LF :: d) = [] :: splitCRLF d := by
  simp [splitCRLF]

theorem splitCRLF_cons_cons (b c : UInt8) (s : GoString) (h : ¬ (b = CR ∧ c = LF))
    (a : GoString) (arr : List GoString) (hs : splitCRLF (c :: s) = a :: arr) :
    splitCRLF (b :: c :: s) = (b :: a) :: arr := by
  rw [splitCRLF, if_neg h, hs]

theorem CR_ne_LF : CR ≠ LF := by decide

/-- Cutting at `"\r\n"` distributes over a separator placed between two blocks. -/
theorem splitCRLF_append (x d : GoString) :
    splitCRLF (x ++ CRLF ++ d) = splitCRLF x ++ splitCRLF d := by
  induction x using splitCRLF.induct with
  | case1 => simp [CRLF, splitCRLF]
  | case2 b =>
    have h : ¬ (b = CR ∧ CR = LF) := fun h => CR_ne_LF h.2
    simp only [CRLF, List.cons_append, List.nil_append, List.append_assoc]
    rw [splitCRLF_cons_cons b CR _ h [] (splitCRLF d) (splitCRLF_cons_CRLF d)]
    simp [splitCRLF]
  | case3 b c s hbc ih =>
    obtain ⟨hb, hc⟩ := hbc
    subst hb; subst hc
    simp only [List.cons_append, List.append_assoc] at ih ⊢
    rw [splitCRLF_cons_CRLF, splitCRLF_cons_CRLF, ih]
    simp
  | case4 b c s hbc hnil ih =>
    exact absurd hnil (splitCRLF_ne_nil _)
  | case5 b c s hbc a arr hs ih =>
    simp only [List.cons_append, List.append_assoc] at ih ⊢
    rw [splitCRLF_cons_cons b c _ hbc a arr hs,
      splitCRLF_cons_cons b c _ hbc a (arr ++ splitCRLF d) (by rw [ih, hs]; rfl)]
    rfl

/-- A line without the pair `"\r\n"` inside is one piece. -/
theorem splitCRLF_line (l : GoString) (h : ¬ CRLF <:+: l) : splitCRLF l = [l] := by
  induction l using splitCRLF.induct with
  | case1 => rfl
  | case2 b => rfl
  | case3 b c s hbc ih =>
    obtain ⟨hb, hc⟩ := hbc
    subst hb; subst hc
    exact absurd ⟨[], s, rfl⟩ h
  | case4 b c s hbc hnil ih =>
    exact absurd hnil (splitCRLF_ne_nil _)
  | case5 b c s hbc a arr hs ih =>
    have h' : ¬ CRLF <:+: c :: s := fun hi => h (by
      obtain ⟨p, q, hpq⟩ := hi
      exact ⟨b :: p, q, by simp [← hpq]⟩)
    have hcs := ih h'
    rw [hs] at hcs
    rw [splitCRLF_cons_cons b c _ hbc a arr hs]
    simp only [List.cons.injEq] at hcs
    rw [hcs.1, hcs.2]

theorem nonEmptyPieces_encodeLines (lines : List GoString)
    (hlines : ∀ l ∈ lines, l ≠ [] ∧ ¬ CRLF <:+: l) :
    (splitCRLF (encodeLines lines)).filter (fun m => decide (m ≠ [])) = lines := by
  induction lines with
  | nil => simp [encodeLines, splitCRLF]
  | cons l lines ih =>
    have hl := hlines l (List.mem_cons_self _ _)
    have ht : ∀ m ∈ lines, m ≠ [] ∧ ¬ CRLF <:+: m :=
      fun m hm => hlines m (List.mem_cons_of_mem _ hm)
    simp only [encodeLines]
    rw [splitCRLF_append, splitCRLF_line l hl.2, List.filter_append, ih ht]
    simp [hl.1]

/-- Reading back a store file to which encoded lines were appended. -/
theorem nonEmptyPieces_append (c : GoString) (lines : List GoString)
    (hc : c = [] ∨ CRLF <:+ c)
    (hlines : ∀ l ∈ lines, l ≠ [] ∧ ¬ CRLF <:+: l) :
    (splitCRLF (c ++ encodeLines lines)).filter (fun m => decide (m ≠ [])) =
      (splitCRLF c).filter (fun m => decide (m ≠ [])) ++ lines := by
  rcases hc with hc | ⟨c0, hc0⟩
  · subst hc
    rw [List.nil_append, nonEmptyPieces_encodeLines lines hlines]
    rfl
  · subst hc0
    have h1 : splitCRLF (c0 ++ CRLF) = splitCRLF c0 ++ [[]] := by
      have := splitCRLF_append c0 []
      simpa [splitCRLF] using this
    rw [splitCRLF_append, h1, List.filter_append, List.filter_append,
      nonEmptyPieces_encodeLines lines hlines]
    simp

theorem writeLoop_writable (goos : GOOS) (path : GoString) (hw : appendHandleWritable goos = true)
    (lines : List GoString) (fs : FileSystem) (c : GoString) (hc : fs path = some c) :
    (writeLoop goos path lines fs).1 = false ∧
    (writeLoop goos path lines fs).2 path = some (c ++ encodeLines lines) ∧
    ∀ p, p ≠ path → (writeLoop goos path lines fs).2 p = fs p := by
  induction lines generalizing fs c with
  | nil => simp [writeLoop, encodeLines, hc]
  | cons l lines ih =>
    simp only [writeLoop, hw, if_true]
    obtain ⟨h1, h2, h3⟩ := ih
      (fun p => if p = path then some ((fs p).getD [] ++ (l ++ CRLF)) else fs p)
      (c ++ (l ++ CRLF)) (by simp [hc])
    refine ⟨h1, ?_, ?_⟩
    · rw [h2]
      simp [encodeLines]
    · intro p hp
      rw [h3 p hp]
      simp [hp]

theorem writeLoop_not_writable (goos : GOOS) (path : GoString)
    (hw : appendHandleWritable goos = false) (lines : List GoString) (fs : FileSystem) :
    writeLoop goos path lines fs = (!lines.isEmpty, fs) := by
  cases lines with
  | nil => rfl
  | cons l lines => simp [writeLoop, hw]

/-- The store file after a call of `WriteMatchesToFile` that returns no error. -/
theorem WriteMatchesToFile_store (goos : GOOS) (fileName : GoString) (lines : List GoString)
    (w : World) (hok : (WriteMatchesToFile goos fileName lines w).1 = false) :
    (WriteMatchesToFile goos fileName lines w).2.fs (matchesPath goos ++ fileName) =
      some ((w.fs (matchesPath goos ++ fileName)).getD [] ++ encodeLines lines) := by
  unfold WriteMatchesToFile at hok ⊢
  simp only [matches_path_eq] at hok ⊢
  cases hw : appendHandleWritable goos with
  | true =>
    exact (writeLoop_writable goos _ hw lines _
      ((w.fs (matchesPath goos ++ fileName)).getD []) (by simp)).2.1
  | false =>
    rw [writeLoop_not_writable goos _ hw] at hok ⊢
    simp only [Bool.not_eq_false', List.isEmpty_iff] at hok
    subst hok
    simp [encodeLines]

theorem WriteMatchesToFile_writable (goos : GOOS) (fileName : GoString) (lines : List GoString)
    (w : World) (hw : appendHandleWritable goos = true) :
    (WriteMatchesToFile goos fileName lines w).1 = false := by
  unfold WriteMatchesToFile
  simp only [matches_path_eq]
  exact (writeLoop_writable goos _ hw lines _
    ((w.fs (matchesPath goos ++ fileName)).getD []) (by simp)).1

/-- Where the handle is not writable, a call of `WriteMatchesToFile` with at least one
match returns an error and the store reads back as before. -/
theorem WriteMatchesToFile_not_writable (goos : GOOS) (fileName : GoString)
    (lines : List GoString) (w : World) (hw : appendHandleWritable goos = false)
    (hne : lines ≠ []) :
    (WriteMatchesToFile goos fileName lines w).1 = true ∧
    GetSavedFileMatches goos fileName (WriteMatchesToFile goos fileName lines w).2.fs =
      GetSavedFileMatches goos fileName w.fs := by
  unfold WriteMatchesToFile GetSavedFileMatches
  simp only [matches_path_eq, writeLoop_not_writable goos _ hw]
  refine ⟨by simpa using hne, ?_⟩
  cases hc : w.fs (matchesPath goos ++ fileName) with
  | none => simp [hc, splitCRLF]
  | some c => simp [hc]

theorem GetSavedFileMatches_after_write (goos : GOOS) (fileName : GoString)
    (lines : List GoString) (w : World)
    (hstore : ∀ c, w.fs (matchesPath goos ++ fileName) = some c → c = [] ∨ CRLF <:+ c)
    (hlines : ∀ l ∈ lines, l ≠ [] ∧ ¬ CRLF <:+: l)
    (hok : (WriteMatchesToFile goos fileName lines w).1 = false) :
    GetSavedFileMatches goos fileName (WriteMatchesToFile goos fileName lines w).2.fs =
      GetSavedFileMatches goos fileName w.fs ++ lines := by
  unfold GetSavedFileMatches
  rw [WriteMatchesToFile_store goos fileName lines w hok]
  cases hc : w.fs (matchesPath goos ++ fileName) with
  | none =>
    simpa [splitCRLF] using nonEmptyPieces_append [] lines (Or.inl rfl) hlines
  | some c =>
    simpa using nonEmptyPieces_append c lines (hstore c hc) hlines

/-! ## Alert dispatcher: lemmas -/

theorem SendEmailAlert_eq (L : Lib) (mail : Nat → Bool) (m sv : List GoString)
    (loc : LogLocation) (w : World) (body : GoString)
    (hb : bodyLoop L loc.SearchTerms (m ++ sv) = .ok body) :
    SendEmailAlert L mail m sv loc w =
      .ok (!mail w.sent, { w with sent := w.sent + 1,
                                  trace := w.trace ++ [Event.SendEmailAlert m sv] }) := by
  simp only [SendEmailAlert, hb]

theorem SendEmailAlert_body (L : Lib) (mail : Nat → Bool) (m sv : List GoString)
    (loc : LogLocation) (w : World) (r : Bool × World)
    (h : SendEmailAlert L mail m sv loc w = .ok r) :
    ∃ body, bodyLoop L loc.SearchTerms (m ++ sv) = .ok body := by
  unfold SendEmailAlert at h
  cases hb : bodyLoop L loc.SearchTerms (m ++ sv) with
  | error p => simp [hb] at h
  | ok body => exact ⟨body, rfl⟩

theorem WriteMatchesToFile_fs (goos : GOOS) (fileName : GoString) (lines : List GoString)
    (w w0 : World) (h : w0.fs = w.fs) :
    (WriteMatchesToFile goos fileName lines w0).2.fs =
      (WriteMatchesToFile goos fileName lines w).2.fs ∧
    (WriteMatchesToFile goos fileName lines w0).2.sent = w0.sent ∧
    (WriteMatchesToFile goos fileName lines w0).2.trace =
      w0.trace ++ [Event.WriteMatchesToFile fileName lines] := by
  simp [WriteMatchesToFile, h]

theorem retryTrace_no_clear (m sv : List GoString) (n : Nat) (name : GoString) :
    Event.ClearMatchesFile name ∉ retryTrace m sv n := by
  induction n with
  | zero => simp [retryTrace]
  | succ n ih => simp [retryTrace, ih]

/-- When the sends of the remaining rounds all fail, `RetrySendEmailAlert` runs them and
ends with `WriteMatchesToFile` on the new matches. -/
theorem RetrySendEmailAlert_exhausted (L : Lib) (mail : Nat → Bool) (goos : GOOS)
    (m sv : List GoString) (loc : LogLocation) (file : GoString) (body : GoString)
    (hb : bodyLoop L loc.SearchTerms (m ++ sv) = .ok body) (n : Nat) :
    ∀ (sentinel : Int) (w : World), sentinel + n = 5 →
      (∀ k, k < n → mail (w.sent + k) = false) →
      RetrySendEmailAlert L mail goos m sv loc file sentinel w =
        .ok (WriteMatchesToFile goos (L.Base file) m
          { w with sent := w.sent + n, trace := w.trace ++ retryTrace m sv n }).2 := by
  induction n with
  | zero =>
    intro sentinel w hs _
    have h5 : (5 : Int) ≤ sentinel := by omega
    rw [RetrySendEmailAlert, if_pos h5]
    simp [retryTrace]
  | succ n ih =>
    intro sentinel w hs hfail
    have h5 : ¬ (5 : Int) ≤ sentinel := by omega
    have h0 : mail w.sent = false := by simpa using hfail 0 (Nat.succ_pos n)
    rw [RetrySendEmailAlert, if_neg h5, SendEmailAlert_eq L mail m sv loc _ body hb]
    simp only [h0, Bool.not_false]
    rw [ih (sentinel + 1) _ (by push_cast at hs ⊢; omega) (by
      intro k hk
      have := hfail (k + 1) (Nat.succ_lt_succ hk)
      simpa [Nat.add_assoc, Nat.add_comm 1 k] using this)]
    simp [retryTrace, Nat.add_assoc, Nat.add_comm 1 n]

/-- When `n` rounds fail and the next one succeeds before the sentinel reaches 5,
`RetrySendEmailAlert` returns after that send: the files are left as they were. -/
theorem RetrySendEmailAlert_success (L : Lib) (mail : Nat → Bool) (goos : GOOS)
    (m sv : List GoString) (loc : LogLocation) (file : GoString) (body : GoString)
    (hb : bodyLoop L loc.SearchTerms (m ++ sv) = .ok body) (n : Nat) :
    ∀ (sentinel : Int) (w : World), sentinel + n < 5 →
      (∀ k, k < n → mail (w.sent + k) = false) → mail (w.sent + n) = true →
      RetrySendEmailAlert L mail goos m sv loc file sentinel w =
        .ok { w with sent := w.sent + (n + 1),
                     trace := w.trace ++ retryTrace m sv (n + 1) } := by
  induction n with
  | zero =>
    intro sentinel w hs _ hsucc
    have h5 : ¬ (5 : Int) ≤ sentinel := by omega
    rw [RetrySendEmailAlert, if_neg h5, SendEmailAlert_eq L mail m sv loc _ body hb]
    simp only [Nat.add_zero] at hsucc
    simp [hsucc, retryTrace]
  | succ n ih =>
    intro sentinel w hs hfail hsucc
    have h5 : ¬ (5 : Int) ≤ sentinel := by omega
    have h0 : mail w.sent = false := by simpa using hfail 0 (Nat.succ_pos n)
    rw [RetrySendEmailAlert, if_neg h5, SendEmailAlert_eq L mail m sv loc _ body hb]
    simp only [h0, Bool.not_false]
    rw [ih (sentinel + 1) _ (by push_cast at hs ⊢; omega) (by
      intro k hk
      have := hfail (k + 1) (Nat.succ_lt_succ hk)
      simpa [Nat.add_assoc, Nat.add_comm 1 k] using this) (by
      simpa [Nat.add_assoc, Nat.add_comm 1 n] using hsucc)]
    simp [retryTrace, Nat.add_assoc, Nat.add_comm 1]

theorem ClearMatchesFile_trace (goos : GOOS) (fileName : GoString) (w : World) :
    (ClearMatchesFile goos fileName w).2.trace =
      w.trace ++ [Event.ClearMatchesFile fileName] := by
  unfold ClearMatchesFile
  cases h : w.fs (matchesPath goos ++ fileName) <;> simp [h]

theorem ClearMatchesFile_fs (goos : GOOS) (fileName : GoString) (w : World) :
    (ClearMatchesFile goos fileName w).2.fs (matchesPath goos ++ fileName) = none := by
  unfold ClearMatchesFile
  cases h : w.fs (matchesPath goos ++ fileName) <;> simp [h]

/-- The sibling path: when the first send succeeds, `ClearMatchesFile` is applied and the
store of the target is empty afterwards. -/
theorem dispatchStep_first_success_clears (L : Lib) (mail : Nat → Bool) (goos : GOOS)
    (m sv : List GoString) (loc : LogLocation) (file : GoString) (w : World) (body : GoString)
    (hb : bodyLoop L loc.SearchTerms (m ++ sv) = .ok body) (hsucc : mail w.sent = true) :
    ∃ w1, dispatchStep L mail goos m sv loc file w = .ok w1 ∧
      w1.trace = w.trace ++ [Event.SendEmailAlert m sv, Event.ClearMatchesFile (L.Base file)] ∧
      GetSavedFileMatches goos (L.Base file) w1.fs = [] := by
  rw [dispatchStep, SendEmailAlert_eq L mail m sv loc w body hb]
  simp only [hsucc, Bool.not_true]
  refine ⟨_, rfl, ?_, ?_⟩
  · rw [ClearMatchesFile_trace]
    simp
  · unfold GetSavedFileMatches
    rw [ClearMatchesFile_fs]

/-- The dispatch step when every send fails: six sends, five sleeps, then the write of the
new matches. -/
theorem dispatchStep_all_fail (L : Lib) (mail : Nat → Bool) (goos : GOOS)
    (new pending : List GoString) (loc : LogLocation) (file : GoString) (w : World)
    (hfail : ∀ w0, ∃ w1, SendEmailAlert L mail new pending loc w0 = .ok (true, w1)) :
    dispatchStep L mail goos new pending loc file w =
      .ok (WriteMatchesToFile goos (L.Base file) new
        { w with sent := w.sent + 6,
                 trace := w.trace ++ Event.SendEmailAlert new pending ::
                   retryTrace new pending 5 }).2 := by
  obtain ⟨w1, h1⟩ := hfail w
  obtain ⟨body, hb⟩ := SendEmailAlert_body L mail new pending loc w _ h1
  have hmail : ∀ k, mail k = false := by
    intro k
    obtain ⟨w2, h2⟩ := hfail { w with sent := k }
    rw [SendEmailAlert_eq L mail new pending loc _ body hb] at h2
    simp only [Except.ok.injEq, Prod.mk.injEq, Bool.not_eq_true'] at h2
    exact h2.1
  rw [dispatchStep, SendEmailAlert_eq L mail new pending loc w body hb]
  simp only [hmail, Bool.not_false]
  rw [RetrySendEmailAlert_exhausted L mail goos new pending loc file body hb 5 0 _ (by norm_num)
    (fun k _ => hmail _)]
  simp

/-- A target whose file does not exist is skipped: nothing is sent and no offset is
written. -/
theorem processTarget_missing_file (L : Lib) (mail : Nat → Bool) (goos : GOOS)
    (loc : LogLocation) (file : GoString) (FileLine : Int) (w : World)
    (hfile : w.fs file = none) :
    processTarget L mail goos loc file FileLine w = .ok (none, w) := by
  simp [processTarget, afterScan, ReadFileForMatches, hfile]

/-! ## Claims on the dispatcher and the pending-match store -/

/-- C1: when every call of `SendEmailAlert` fails, the dispatch step (the first send of
`main` followed by `RetrySendEmailAlert` with sentinel 0) terminates after exactly six calls
of `SendEmailAlert`, separated by five sleeps, followed by exactly one call of
`WriteMatchesToFile`, whose argument is the list of new matches; the files are then those
left by that write. It is what `main` runs when there is a new match or a pending one. -/
theorem dispatchStep_retry_bound (L : Lib) (mail : Nat → Bool) (goos : GOOS)
    (new pending : List GoString) (loc : LogLocation) (file : GoString) (w : World)
    (hfail : ∀ w0, ∃ w1, SendEmailAlert L mail new pending loc w0 = .ok (true, w1)) :
    ∃ w', dispatchStep L mail goos new pending loc file w = .ok w' ∧
      w'.sent = w.sent + 6 ∧
      w'.trace = w.trace ++
        [Event.SendEmailAlert new pending,
         Event.Sleep, Event.SendEmailAlert new pending,
         Event.Sleep, Event.SendEmailAlert new pending,
         Event.Sleep, Event.SendEmailAlert new pending,
         Event.Sleep, Event.SendEmailAlert new pending,
         Event.Sleep, Event.SendEmailAlert new pending,
         Event.WriteMatchesToFile (L.Base file) new] ∧
      w'.fs = (WriteMatchesToFile goos (L.Base file) new w).2.fs ∧
      (0 < new.length ∨ 0 < pending.length →
        dispatch L mail goos new pending loc file w = .ok w') := by
  have hw := WriteMatchesToFile_fs goos (L.Base file) new w
    { w with sent := w.sent + 6,
             trace := w.trace ++ Event.SendEmailAlert new pending :: retryTrace new pending 5 }
    rfl
  refine ⟨_, dispatchStep_all_fail L mail goos new pending loc file w hfail, ?_, ?_, ?_, ?_⟩
  · exact hw.2.1
  · rw [hw.2.2]
    simp [retryTrace]
  · exact hw.1
  · intro hne
    rw [dispatch, if_pos hne]
    exact dispatchStep_all_fail L mail goos new pending loc file w hfail

theorem dispatchStep_retry_bound_witness :
    (∀ w0, ∃ w1, SendEmailAlert asciiLib alwaysFails [bytes "ERROR one"] [bytes "ERROR old"]
      scenarioTarget w0 = .ok (true, w1)) ∧
    ∃ w', dispatchStep asciiLib alwaysFails GOOS.windows [bytes "ERROR one"] [bytes "ERROR old"]
        scenarioTarget (bytes "app.log") storeWorld = .ok w' ∧
      w'.sent = storeWorld.sent + 6 ∧
      w'.trace = storeWorld.trace ++
        [Event.SendEmailAlert [bytes "ERROR one"] [bytes "ERROR old"],
         Event.Sleep, Event.SendEmailAlert [bytes "ERROR one"] [bytes "ERROR old"],
         Event.Sleep, Event.SendEmailAlert [bytes "ERROR one"] [bytes "ERROR old"],
         Event.Sleep, Event.SendEmailAlert [bytes "ERROR one"] [bytes "ERROR old"],
         Event.Sleep, Event.SendEmailAlert [bytes "ERROR one"] [bytes "ERROR old"],
         Event.Sleep, Event.SendEmailAlert [bytes "ERROR one"] [bytes "ERROR old"],
         Event.WriteMatchesToFile (asciiLib.Base (bytes "app.log")) [bytes "ERROR one"]] ∧
      w'.fs = (WriteMatchesToFile GOOS.windows (asciiLib.Base (bytes "app.log"))
        [bytes "ERROR one"] storeWorld).2.fs ∧
      (0 < [bytes "ERROR one"].length ∨ 0 < [bytes "ERROR old"].length →
        dispatch asciiLib alwaysFails GOOS.windows [bytes "ERROR one"] [bytes "ERROR old"]
          scenarioTarget (bytes "app.log") storeWorld = .ok w') :=
  ⟨fun _ => ⟨_, rfl⟩,
    dispatchStep_retry_bound asciiLib alwaysFails GOOS.windows [bytes "ERROR one"]
      [bytes "ERROR old"] scenarioTarget (bytes "app.log") storeWorld (fun _ => ⟨_, rfl⟩)⟩

/-- C4 as stated fails: an empty match line is written as a bare `"\r\n"` and is skipped
when the store is read back. Such a line is a match that the scanner can produce: with
the empty search term the three lines of a file whose second line is empty all match. -/
theorem pending_store_counterexample :
    (WriteMatchesToFile GOOS.windows (bytes "app.log") [[]] emptyWorld).1 = false ∧
    GetSavedFileMatches GOOS.windows (bytes "app.log")
      (WriteMatchesToFile GOOS.windows (bytes "app.log") [[]] emptyWorld).2.fs = [] ∧
    GetSavedFileMatches GOOS.windows (bytes "app.log") emptyWorld.fs ++ [[]] ≠ [] ∧
    ReadFileForMatches asciiLib (oneFile (bytes "app.log") (bytes "a\n\nb\n")) (bytes "app.log")
      [[]] [] 0 = .ok ([bytes "a", [], bytes "b"], 5) ∧
    GetSavedFileMatches GOOS.windows (bytes "app.log")
      (WriteMatchesToFile GOOS.windows (bytes "app.log") [bytes "a", [], bytes "b"]
        emptyWorld).2.fs = [bytes "a", bytes "b"] := by
  decide

/-- C4 (amended): let the store file of the target be absent, empty or ended by `"\r\n"`,
and let the match lines be non-empty and without the pair `"\r\n"` inside. When
`WriteMatchesToFile` returns no error, `GetSavedFileMatches` then returns the lines stored
before followed by exactly these lines, in the same order. Hence after a dispatch step in
which all six sends fail and whose write returns no error, the store holds what was
pending before followed by the lines found in that cycle. -/
theorem WriteMatchesToFile_keeps_order (goos : GOOS) (fileName : GoString)
    (lines : List GoString) (w : World)
    (hstore : ∀ c, w.fs (matchesPath goos ++ fileName) = some c → c = [] ∨ CRLF <:+ c)
    (hlines : ∀ l ∈ lines, l ≠ [] ∧ ¬ CRLF <:+: l) :
    ((WriteMatchesToFile goos fileName lines w).1 = false →
      GetSavedFileMatches goos fileName (WriteMatchesToFile goos fileName lines w).2.fs =
        GetSavedFileMatches goos fileName w.fs ++ lines) ∧
    (∀ (L : Lib) (mail : Nat → Bool) (pending : List GoString) (loc : LogLocation)
      (file : GoString), L.Base file = fileName →
      (∀ w0, ∃ w1, SendEmailAlert L mail lines pending loc w0 = .ok (true, w1)) →
      (WriteMatchesToFile goos fileName lines w).1 = false →
      ∃ w', dispatchStep L mail goos lines pending loc file w = .ok w' ∧
        GetSavedFileMatches goos fileName w'.fs =
          GetSavedFileMatches goos fileName w.fs ++ lines) := by
  refine ⟨GetSavedFileMatches_after_write goos fileName lines w hstore hlines, ?_⟩
  intro L mail pending loc file hbase hfail hok
  have hw := WriteMatchesToFile_fs goos fileName lines w
    { w with sent := w.sent + 6,
             trace := w.trace ++ Event.SendEmailAlert lines pending :: retryTrace lines pending 5 }
    rfl
  refine ⟨_, dispatchStep_all_fail L mail goos lines pending loc file w hfail, ?_⟩
  rw [hbase, hw.1]
  exact GetSavedFileMatches_after_write goos fileName lines w hstore hlines hok

theorem WriteMatchesToFile_keeps_order_witness :
    (∀ c, storeWorld.fs (matchesPath GOOS.windows ++ bytes "app.log") = some c →
      c = [] ∨ CRLF <:+ c) ∧
    (∀ l ∈ [bytes "ERROR one", bytes "ERROR two"], l ≠ [] ∧ ¬ CRLF <:+: l) ∧
    (WriteMatchesToFile GOOS.windows (bytes "app.log") [bytes "ERROR one", bytes "ERROR two"]
      storeWorld).1 = false ∧
    GetSavedFileMatches GOOS.windows (bytes "app.log")
      (WriteMatchesToFile GOOS.windows (bytes "app.log") [bytes "ERROR one", bytes "ERROR two"]
        storeWorld).2.fs = [bytes "ERROR old", bytes "ERROR one", bytes "ERROR two"] :=
  have hstore : ∀ c, storeWorld.fs (matchesPath GOOS.windows ++ bytes "app.log") = some c →
      c = [] ∨ CRLF <:+ c := fun c hc =>
    Or.inr ⟨bytes "ERROR old", (by decide : bytes "ERROR old" ++ CRLF = bytes "ERROR old\r\n").trans
      (Option.some.inj ((by decide : storeWorld.fs (matchesPath GOOS.windows ++ bytes "app.log") =
        some (bytes "ERROR old\r\n")).symm.trans hc))⟩
  have hlines : ∀ l ∈ [bytes "ERROR one", bytes "ERROR two"], l ≠ [] ∧ ¬ CRLF <:+: l := by
    decide
  ⟨hstore, hlines, by decide,
    ((WriteMatchesToFile_keeps_order GOOS.windows (bytes "app.log")
      [bytes "ERROR one", bytes "ERROR two"] storeWorld hstore hlines).1 (by decide)).trans
      (by decide)⟩

/-- C5 (what the code does): when the first send fails, the next `n` sends of
`RetrySendEmailAlert` fail and the one after succeeds, with `n < 5`, the dispatch ends
after that successful send without any call of `ClearMatchesFile`: the files are left as
they were and `GetSavedFileMatches` returns the same backlog as before. -/
theorem dispatch_retry_success_keeps_backlog (L : Lib) (mail : Nat → Bool) (goos : GOOS)
    (new pending : List GoString) (loc : LogLocation) (file : GoString) (w : World) (n : Nat)
    (hne : 0 < new.length ∨ 0 < pending.length)
    (hbody : ∃ body, bodyLoop L loc.SearchTerms (new ++ pending) = .ok body)
    (hn : n < 5)
    (hfail : ∀ k, k ≤ n → mail (w.sent + k) = false)
    (hsucc : mail (w.sent + (n + 1)) = true) :
    ∃ w', dispatch L mail goos new pending loc file w = .ok w' ∧
      w'.trace = w.trace ++ Event.SendEmailAlert new pending :: retryTrace new pending (n + 1) ∧
      (∀ name, Event.ClearMatchesFile name ∉
        Event.SendEmailAlert new pending :: retryTrace new pending (n + 1)) ∧
      w'.fs = w.fs ∧
      GetSavedFileMatches goos (L.Base file) w'.fs =
        GetSavedFileMatches goos (L.Base file) w.fs := by
  obtain ⟨body, hb⟩ := hbody
  have h0 : mail w.sent = false := by simpa using hfail 0 (Nat.zero_le n)
  rw [dispatch, if_pos hne, dispatchStep, SendEmailAlert_eq L mail new pending loc w body hb]
  simp only [h0, Bool.not_false]
  rw [RetrySendEmailAlert_success L mail goos new pending loc file body hb n 0 _
    (by omega)
    (by
      intro k hk
      have := hfail (k + 1) hk
      simpa [Nat.add_assoc, Nat.add_comm 1 k] using this)
    (by simpa [Nat.add_assoc, Nat.add_comm 1 n] using hsucc)]
  refine ⟨_, rfl, by simp, ?_, rfl, rfl⟩
  intro name h
  rcases List.mem_cons.1 h with h | h
  · cases h
  · exact retryTrace_no_clear new pending (n + 1) name h

theorem dispatch_retry_success_keeps_backlog_witness :
    (0 < [bytes "ERROR one"].length ∨ 0 < [bytes "ERROR old"].length) ∧
    (∃ body, bodyLoop asciiLib scenarioTarget.SearchTerms
      ([bytes "ERROR one"] ++ [bytes "ERROR old"]) = .ok body) ∧
    0 < 5 ∧
    (∀ k, k ≤ 0 → secondSucceeds (storeWorld.sent + k) = false) ∧
    secondSucceeds (storeWorld.sent + (0 + 1)) = true ∧
    GetSavedFileMatches GOOS.windows (asciiLib.Base (bytes "app.log")) storeWorld.fs =
      [bytes "ERROR old"] ∧
    ∃ w', dispatch asciiLib secondSucceeds GOOS.windows [bytes "ERROR one"] [bytes "ERROR old"]
        scenarioTarget (bytes "app.log") storeWorld = .ok w' ∧
      w'.trace = storeWorld.trace ++ Event.SendEmailAlert [bytes "ERROR one"] [bytes "ERROR old"] ::
        retryTrace [bytes "ERROR one"] [bytes "ERROR old"] (0 + 1) ∧
      (∀ name, Event.ClearMatchesFile name ∉
        Event.SendEmailAlert [bytes "ERROR one"] [bytes "ERROR old"] ::
          retryTrace [bytes "ERROR one"] [bytes "ERROR old"] (0 + 1)) ∧
      w'.fs = storeWorld.fs ∧
      GetSavedFileMatches GOOS.windows (asciiLib.Base (bytes "app.log")) w'.fs =
        GetSavedFileMatches GOOS.windows (asciiLib.Base (bytes "app.log")) storeWorld.fs :=
  have hfail : ∀ k, k ≤ 0 → secondSucceeds (storeWorld.sent + k) = false := by
    intro k hk
    have hk0 : k = 0 := Nat.le_zero.1 hk
    subst hk0
    decide
  ⟨by decide, ⟨_, rfl⟩, by decide, hfail, by decide, by decide,
    dispatch_retry_success_keeps_backlog asciiLib secondSucceeds GOOS.windows
      [bytes "ERROR one"] [bytes "ERROR old"] scenarioTarget (bytes "app.log") storeWorld 0
      (by decide) ⟨_, rfl⟩ (by decide) hfail (by decide)⟩

end LogAlert
